import Mathlib

/-!
# RKCfg: the Rockchip flashing-configuration file (`src/rockchip/RKCfg.cpp`)

A shallow embedding of `RKCfgFile` and of its loaders, savers and mutators.

`RKCfgHeader` and `RKCfgItem` are declared in `RKCfg.h`, which is not part of
the sources at hand.  The code reads and writes both records through
`reinterpret_cast<char*>`, so a record is modelled by its object
representation: `sizeof` bytes.  Where the fields sit inside a record is a
parameter (`Layout`); a field is read and written as a little-endian unsigned
integer of its width, so a store wraps modulo `256 ^ width`.  Arithmetic on
the members follows the rules of C++ for unsigned operands, with an `int` of
four bytes and a `size_t` of eight.

Narrow text (`std::string`) is a list of characters.  What the file system
answers (whether a path exists, whether it opens, its content, the entries of
a directory) is an argument of the loaders.  The helpers of `util/String.h`
are not part of the sources at hand either; they are modelled from the
specification and marked so.  The loops `while (std::getline(...))` run on an
explicit stream state with fuel, and the fuel they are given is proved to be
enough.

The JSON library is a collaborator: a parsed document is a value of `Json`
(numbers are integers), accessed by the rules of the library (a conversion of
the wrong type throws, the constant access to an absent member is undefined),
and the text layer (`dump`, then `json::parse`) is taken to give the document
back.  Where the behaviour of the code is undefined there is no result (`none`).
-/

namespace rockchip

deriving instance DecidableEq for Except

/-! ## Object representation -/

/-- The little-endian bytes of `v` stored in `w` bytes (the value wraps modulo `256 ^ w`). -/
def leBytes : Nat → Nat → List UInt8
  | 0, _ => []
  | w + 1, v => UInt8.ofNat (v % 256) :: leBytes w (v / 256)

/-- The unsigned value of a little-endian byte string. -/
def leVal : List UInt8 → Nat
  | [] => 0
  | b :: bs => b.toNat + 256 * leVal bs

/-- The `n` bytes found at offset `off` (fewer when the buffer ends before). -/
def readBytes (bs : List UInt8) (off n : Nat) : List UInt8 :=
  (bs.drop off).take n

/-- Overwrite the bytes at offset `off` with `new`. -/
def writeBytes (bs : List UInt8) (off : Nat) (new : List UInt8) : List UInt8 :=
  bs.take off ++ new ++ bs.drop (off + new.length)

/-- An integer member of a record: its byte offset and its width in bytes. -/
structure Field where
  off : Nat
  width : Nat
deriving DecidableEq, Repr

/-- Read an integer member. -/
def Field.get (f : Field) (bs : List UInt8) : Nat :=
  leVal (readBytes bs f.off f.width)

/-- Store into an integer member (conversion to the member type wraps). -/
def Field.set (f : Field) (bs : List UInt8) (v : Nat) : List UInt8 :=
  writeBytes bs f.off (leBytes f.width v)

/-- The byte range `[off, off + len)` lies inside a record of `size` bytes. -/
def inside (off len size : Nat) : Prop := off + len ≤ size

/-- Two byte ranges do not overlap. -/
def apart (o₁ n₁ o₂ n₂ : Nat) : Prop := o₁ + n₁ ≤ o₂ ∨ o₂ + n₂ ≤ o₁

instance (off len size : Nat) : Decidable (inside off len size) := by
  unfold inside; infer_instance

instance (o₁ n₁ o₂ n₂ : Nat) : Decidable (apart o₁ n₁ o₂ n₂) := by
  unfold apart; infer_instance

/-- The compiled constants of `RKCfg.h`: record sizes, member positions and
the two bounds of the wide-character buffers. -/
structure Layout where
  /-- The value of `sizeof(RKCfgHeader)`. -/
  headerSize : Nat
  /-- The value of `sizeof(RKCfgItem)`. -/
  itemSize : Nat
  /-- The offset of `RKCfgHeader::magic`. -/
  magicOff : Nat
  /-- The member `RKCfgHeader::begin`. -/
  beginF : Field
  /-- The member `RKCfgHeader::item_size`. -/
  itemSizeF : Field
  /-- The member `RKCfgHeader::length`. -/
  lengthF : Field
  /-- The member `RKCfgItem::is_selected`. -/
  selectedF : Field
  /-- The member `RKCfgItem::address`. -/
  addressF : Field
  /-- The constant `RKCfgItem::RK_V286_MAX_NAME_SIZE`, in 16-bit units. -/
  maxName : Nat
  /-- The offset of `RKCfgItem::name`. -/
  nameOff : Nat
  /-- The constant `RKCfgItem::RK_V286_MAX_PATH_SIZE`, in 16-bit units. -/
  maxPath : Nat
  /-- The offset of `RKCfgItem::image_path`. -/
  pathOff : Nat
deriving DecidableEq, Repr

/-- The members lie inside their record and do not overlap. -/
def Layout.wf (L : Layout) : Prop :=
  (inside L.magicOff 4 L.headerSize ∧
   inside L.beginF.off L.beginF.width L.headerSize ∧
   inside L.itemSizeF.off L.itemSizeF.width L.headerSize ∧
   inside L.lengthF.off L.lengthF.width L.headerSize) ∧
  (apart L.magicOff 4 L.beginF.off L.beginF.width ∧
   apart L.magicOff 4 L.itemSizeF.off L.itemSizeF.width ∧
   apart L.magicOff 4 L.lengthF.off L.lengthF.width ∧
   apart L.beginF.off L.beginF.width L.itemSizeF.off L.itemSizeF.width ∧
   apart L.beginF.off L.beginF.width L.lengthF.off L.lengthF.width ∧
   apart L.itemSizeF.off L.itemSizeF.width L.lengthF.off L.lengthF.width) ∧
  (inside L.selectedF.off L.selectedF.width L.itemSize ∧
   inside L.addressF.off L.addressF.width L.itemSize ∧
   inside L.nameOff (2 * L.maxName) L.itemSize ∧
   inside L.pathOff (2 * L.maxPath) L.itemSize) ∧
  (apart L.selectedF.off L.selectedF.width L.addressF.off L.addressF.width ∧
   apart L.selectedF.off L.selectedF.width L.nameOff (2 * L.maxName) ∧
   apart L.selectedF.off L.selectedF.width L.pathOff (2 * L.maxPath) ∧
   apart L.addressF.off L.addressF.width L.nameOff (2 * L.maxName) ∧
   apart L.addressF.off L.addressF.width L.pathOff (2 * L.maxPath) ∧
   apart L.nameOff (2 * L.maxName) L.pathOff (2 * L.maxPath))

instance (L : Layout) : Decidable L.wf := by
  unfold Layout.wf; infer_instance

/-! ## The records and the configuration -/

/-- The bytes `C`, `F`, `G` and the terminator that `strcmp(magic, "CFG")` compares. -/
def magicCFG : List UInt8 := [67, 70, 71, 0]

/-- The test `strcmp(header.magic, "CFG") == 0`. -/
def magicOk (L : Layout) (header : List UInt8) : Bool :=
  readBytes header L.magicOff 4 == magicCFG

/-- Modelled from the spec: the default member initialisers of `RKCfgHeader`
(declared in `RKCfg.h`): "constructed empty with header defaults (magic set,
item-record-size set to the compiled constant, count zero)", the header-length
member being "a fixed compiled constant on write"; every other byte is zero. -/
def defaultHeader (L : Layout) : List UInt8 :=
  L.itemSizeF.set
    (L.beginF.set
      (writeBytes (List.replicate L.headerSize 0) L.magicOff magicCFG)
      L.headerSize)
    L.itemSize

/-- Modelled from the spec: the default member initialisers of `RKCfgItem`
(declared in `RKCfg.h`): an item that has not been filled in has an empty name
and an empty image path; every byte is zero. -/
def defaultItem (L : Layout) : List UInt8 :=
  List.replicate L.itemSize 0

/-- The class `RKCfgFile`: the header record and the ordered item records,
each held as its object representation. -/
structure RKCfgFile where
  m_header : List UInt8
  m_items : List (List UInt8)
deriving DecidableEq, Repr

/-- Every record of the configuration has the size of its type. -/
def RKCfgFile.sized (L : Layout) (c : RKCfgFile) : Prop :=
  c.m_header.length = L.headerSize ∧ ∀ item ∈ c.m_items, item.length = L.itemSize

/-- The default constructor `RKCfgFile result;`. -/
def RKCfgFile.empty (L : Layout) : RKCfgFile :=
  { m_header := defaultHeader L, m_items := [] }

/-- The statement `m_header.length++`. -/
def incLength (L : Layout) (header : List UInt8) : List UInt8 :=
  L.lengthF.set header (L.lengthF.get header + 1)

/-- The statement `m_header.length--` (an unsigned member: zero wraps to the maximum). -/
def decLength (L : Layout) (header : List UInt8) : List UInt8 :=
  L.lengthF.set header
    (if L.lengthF.get header = 0 then 256 ^ L.lengthF.width - 1 else L.lengthF.get header - 1)

/-- The method `addItem(item, auto_increase_length)`. -/
def RKCfgFile.addItem (L : Layout) (c : RKCfgFile) (item : List UInt8)
    (auto_increase_length : Bool) : RKCfgFile :=
  { m_items := c.m_items ++ [item]
    m_header := if auto_increase_length then incLength L c.m_header else c.m_header }

/-- The method `addItem(item, index, auto_increase_length)`; `vector::insert` at
`begin() + index` is defined only for `index ≤ size()`, otherwise there is no result. -/
def RKCfgFile.addItemAt (L : Layout) (c : RKCfgFile) (item : List UInt8) (index : Nat)
    (auto_increase_length : Bool) : Option RKCfgFile :=
  if index ≤ c.m_items.length then
    some
      { m_items := c.m_items.take index ++ item :: c.m_items.drop index
        m_header := if auto_increase_length then incLength L c.m_header else c.m_header }
  else none

/-- The method `removeItem(index)`; `vector::erase` at `begin() + index` is
defined only for `index < size()`, otherwise there is no result. -/
def RKCfgFile.removeItem (L : Layout) (c : RKCfgFile) (index : Nat) : Option RKCfgFile :=
  if index < c.m_items.length then
    some
      { m_items := c.m_items.take index ++ c.m_items.drop (index + 1)
        m_header := decLength L c.m_header }
  else none

/-- A filter of an `ItemFilterCollection`: the method `filt(idx, item)`. -/
abbrev ItemFilter := Nat → List UInt8 → Bool

/-- The loop of `removeItem(filters)`, run for at most `fuel` iterations from
position `idx`.  One iteration tries the filters in order on
`(idx, m_items.at(idx))`; the first that answers true erases the item and
decrements the count, and `idx` stays; when none does, `idx` advances. -/
def removeItemLoop (L : Layout) (filters : List ItemFilter) :
    Nat → RKCfgFile → Nat → RKCfgFile × Nat
  | 0, c, idx => (c, idx)
  | fuel + 1, c, idx =>
    match c.m_items.get? idx with
    | none => (c, idx)
    | some item =>
      if filters.any (fun filter => filter idx item) then
        removeItemLoop L filters fuel
          { m_items := c.m_items.take idx ++ c.m_items.drop (idx + 1)
            m_header := decLength L c.m_header } idx
      else
        removeItemLoop L filters fuel c (idx + 1)

/-- The method `removeItem(filters)`.  Every iteration erases an item or
advances `idx`, so `m_items.size()` iterations reach the end of the list. -/
def RKCfgFile.removeItemIf (L : Layout) (c : RKCfgFile) (filters : List ItemFilter) :
    RKCfgFile :=
  (removeItemLoop L filters c.m_items.length c 0).1

/-- The method `updateItem(index, item)`; `m_items.at(index)` throws for
`index ≥ size()`, so there is no result then. -/
def RKCfgFile.updateItem (c : RKCfgFile) (index : Nat) (item : List UInt8) :
    Option RKCfgFile :=
  if index < c.m_items.length then
    some { c with m_items := c.m_items.set index item }
  else none

/-- A call of one of the mutators of `RKCfgFile`. -/
inductive Call where
  | addItem (item : List UInt8) (auto_increase_length : Bool)
  | addItemAt (item : List UInt8) (index : Nat) (auto_increase_length : Bool)
  | removeItem (index : Nat)
  | removeItemIf (filters : List ItemFilter)
  | updateItem (index : Nat) (item : List UInt8)

/-- The call leaves `auto_increase_length` at its default, `true`. -/
def Call.grows : Call → Bool
  | .addItem _ auto_increase_length => auto_increase_length
  | .addItemAt _ _ auto_increase_length => auto_increase_length
  | _ => true

/-- Run one call; there is no result when its index is out of range. -/
def RKCfgFile.call (L : Layout) (c : RKCfgFile) : Call → Option RKCfgFile
  | .addItem item auto_increase_length => some (c.addItem L item auto_increase_length)
  | .addItemAt item index auto_increase_length => c.addItemAt L item index auto_increase_length
  | .removeItem index => c.removeItem L index
  | .removeItemIf filters => some (c.removeItemIf L filters)
  | .updateItem index item => c.updateItem index item

/-- Run a sequence of calls, first to last. -/
def RKCfgFile.calls (L : Layout) (c : RKCfgFile) : List Call → Option RKCfgFile
  | [] => some c
  | call :: rest =>
    match c.call L call with
    | none => none
    | some c' => c'.calls L rest

/-- The items that the loop of `removeItem(filters)` keeps out of `items`, when
it meets them from position `idx` on: an item is dropped when some filter
answers true on it at the position it then has, which is the number of items
kept before it. -/
def keptFrom (filters : List ItemFilter) : Nat → List (List UInt8) → List (List UInt8)
  | _, [] => []
  | idx, item :: items =>
    if filters.any (fun filter => filter idx item) then keptFrom filters idx items
    else item :: keptFrom filters (idx + 1) items

/-- The header has its compiled size and its count member holds the length of
the item list, reduced modulo the capacity of the member. -/
def RKCfgFile.counted (L : Layout) (c : RKCfgFile) : Prop :=
  c.m_header.length = L.headerSize ∧
    L.lengthF.get c.m_header = c.m_items.length % 256 ^ L.lengthF.width

/-! ## The binary codec -/

/-- The enumeration `RKCfgLoadErrorCode`. -/
inductive RKCfgLoadErrorCode where
  | FileNotExists
  | UnableToOpenFile
  | IsNotRKCfgFile
  | UnsupportedItemSize
  | AbnormalFileSize
  | UnsupportedHeaderSize
  | JsonParseError
deriving DecidableEq, Repr

/-- The enumeration `RKCfgSaveErrorCode`. -/
inductive RKCfgSaveErrorCode where
  | UnableToOpenFile
deriving DecidableEq, Repr

/-- What the file system holds under a path that exists: the content of the
file and whether a stream opens on it. -/
structure DiskFile (α : Type) where
  content : List α
  openable : Bool
deriving DecidableEq, Repr

/-- One iteration of the item loop of `fromFile`: `seekg(pos)`, then `read`
into a fresh `RKCfgItem item;`.  Once a read has come up short the stream has
failed and both calls do nothing, so the item keeps its initial value; a read
that meets the end of the file fills only the bytes it got.  The result is the
item and whether the stream has failed. -/
def readItemAt (L : Layout) (content : List UInt8) (failed : Bool) (pos : Nat) :
    List UInt8 × Bool :=
  if failed then (defaultItem L, true)
  else
    let got := readBytes content pos L.itemSize
    (got ++ (defaultItem L).drop got.length, decide (got.length < L.itemSize))

/-- The item loop of `fromFile`, with `n` iterations left from index `idx`.
The header is not written inside the loop (`addItem(item, false)`), so the
bound `m_header.length`, `m_header.begin` and `m_header.item_size` are fixed.
The position `begin + idx * item_size` is a `size_t`; it is kept in `ℕ`, since
it grows by one item per iteration and a read has met the end of the file, and
the stream has failed for good, long before it could wrap. -/
def loadItems (L : Layout) (content : List UInt8) :
    Nat → Nat → Bool → RKCfgFile → RKCfgFile
  | 0, _, _, result => result
  | n + 1, idx, failed, result =>
    let r := readItemAt L content failed
      (L.beginF.get result.m_header + idx * L.itemSizeF.get result.m_header)
    loadItems L content n (idx + 1) r.2 (result.addItem L r.1 false)

/-- The product `item_size * length` of the size test (line 37), in the type
in which C++ computes it.  The two members are unsigned integers of their
widths and `int` has four bytes.  When both members are narrower than `int`
they are promoted to `int`, whose overflow (a product of `2 ^ 31` or more) is
undefined: no result.  Otherwise the product is taken in the wider of the two
unsigned types and wraps modulo its capacity. -/
def sizeProduct (L : Layout) (item_size length : Nat) : Option Nat :=
  if max L.itemSizeF.width L.lengthF.width < 4 then
    if item_size * length < 2 ^ 31 then some (item_size * length) else none
  else some (item_size * length % 256 ^ max L.itemSizeF.width L.lengthF.width)

/-- The value `legal_size` of line 37 for a header: `sizeof(m_header)` plus the
product of the two members.  The sum has the type `size_t` of `sizeof` (eight
bytes) and wraps modulo its capacity. -/
def legalSize (L : Layout) (header : List UInt8) : Option Nat :=
  match sizeProduct L (L.itemSizeF.get header) (L.lengthF.get header) with
  | some product => some ((L.headerSize + product) % 2 ^ 64)
  | none => none

/-- A total size `n` of the item records that line 37 computes without
overflow: `n` is below the capacity of the type of the product, and the sum
with the header size is below the capacity of `size_t`. -/
def sizeFits (L : Layout) (n : Nat) : Prop :=
  n < (if max L.itemSizeF.width L.lengthF.width < 4 then 2 ^ 31
    else 256 ^ max L.itemSizeF.width L.lengthF.width) ∧
  L.headerSize + n < 2 ^ 64

instance (L : Layout) (n : Nat) : Decidable (sizeFits L n) := by
  unfold sizeFits; infer_instance

/-- The loader `RKCfgFile::fromFile`; `file` is what the path leads to, `none`
when nothing exists there.  The size of the file is compared with `legal_size`
as line 37 computes it (`legalSize`); where that computation is undefined the
loader has no result. -/
def RKCfgFile.fromFile (L : Layout) (file : Option (DiskFile UInt8)) :
    Option (Except RKCfgLoadErrorCode RKCfgFile) :=
  match file with
  | none => some (.error .FileNotExists)
  | some f =>
    let file_size := f.content.length
    if file_size < L.headerSize then some (.error .IsNotRKCfgFile)
    else if !f.openable then some (.error .UnableToOpenFile)
    else
      let result : RKCfgFile :=
        { RKCfgFile.empty L with m_header := f.content.take L.headerSize }
      if !magicOk L result.m_header then some (.error .IsNotRKCfgFile)
      else if L.itemSizeF.get result.m_header ≠ L.itemSize then
        some (.error .UnsupportedItemSize)
      else
        match legalSize L result.m_header with
        | none => none
        | some legal_size =>
          if file_size ≠ legal_size then some (.error .AbnormalFileSize)
          else some (.ok (loadItems L f.content (L.lengthF.get result.m_header) 0 false result))

/-- The binary branch of `RKCfgFile::save`: the header record, then every item
record in list order; `openable` tells whether the destination opens. -/
def RKCfgFile.saveBinary (c : RKCfgFile) (openable : Bool) :
    Except RKCfgSaveErrorCode (List UInt8) :=
  if !openable then .error .UnableToOpenFile
  else .ok (c.m_header ++ c.m_items.flatten)

/-! ## Narrow text and the helpers of `util/String.h` -/

/-- The call `s.find(ch)`: the first position of `ch`, `none` standing for `npos`. -/
def find : List Char → Char → Option Nat
  | [], _ => none
  | c :: cs, ch => if c = ch then some 0 else (find cs ch).map (· + 1)

/-- The call `s.find(ch, pos)`. -/
def findFrom (s : List Char) (ch : Char) (pos : Nat) : Option Nat :=
  (find (s.drop pos) ch).map (· + pos)

/-- The call `s.substr(pos, n)`, for `pos ≤ s.size()`. -/
def substr (s : List Char) (pos n : Nat) : List Char :=
  (s.drop pos).take n

/-- The call `s.starts_with(p)`. -/
def starts_with (s p : List Char) : Bool :=
  p.isPrefixOf s

/-- Modelled from the spec: `util::string::remove_prefix` (declared in
`util/String.h`): "if it begins with a literal `CMDLINE: ` marker, strip that
marker". -/
def remove_prefix (s p : List Char) : List Char :=
  if starts_with s p then s.drop p.length else s

/-- Modelled from the spec: `util::string::remove_suffix` (declared in
`util/String.h`): "strip a literal `:grow` suffix from the name if present
(idempotent if absent)". -/
def remove_suffix (s p : List Char) : List Char :=
  if p.isSuffixOf s then s.take (s.length - p.length) else s

/-- Modelled from the spec: the hexadecimal digits read by `util::string::to_uint32`. -/
def hexDigit (c : Char) : Option Nat :=
  if c.isDigit then some (c.toNat - 48)
  else if 97 ≤ c.toNat ∧ c.toNat ≤ 102 then some (c.toNat - 87)
  else if 65 ≤ c.toNat ∧ c.toNat ≤ 70 then some (c.toNat - 55)
  else none

/-- Modelled from the spec: the decimal digits read by `util::string::to_uint32`. -/
def decDigit (c : Char) : Option Nat :=
  if c.isDigit then some (c.toNat - 48) else none

/-- Modelled from the spec: the number that `util::string::to_uint32` reads
from a string of digits in the given base, `acc` being the value of the digits
already read. -/
def digitsVal (base : Nat) (digit : Char → Option Nat) : List Char → Nat → Option Nat
  | [], acc => some acc
  | c :: cs, acc =>
    match digit c with
    | none => none
    | some d => digitsVal base digit cs (acc * base + d)

/-- Modelled from the spec: `util::string::to_uint32` (declared in
`util/String.h`): "parse it as an unsigned 32-bit hex/decimal integer and fail
if unparsable".  A `0x` or `0X` marker announces hexadecimal digits, otherwise
the digits are decimal; there must be a digit, nothing may follow the digits
and the value must fit 32 bits. -/
def to_uint32 (s : List Char) : Option Nat :=
  let r :=
    match s with
    | '0' :: 'x' :: d :: ds => digitsVal 16 hexDigit (d :: ds) 0
    | '0' :: 'X' :: d :: ds => digitsVal 16 hexDigit (d :: ds) 0
    | d :: ds => digitsVal 10 decDigit (d :: ds) 0
    | [] => none
  match r with
  | some v => if v < 2 ^ 32 then some v else none
  | none => none

/-- Modelled from the spec: the 16-bit code units that `util::string::to_char16`
stores for one character (UTF-16). -/
def utf16Char (c : Char) : List Nat :=
  if c.toNat < 65536 then [c.toNat]
  else [55296 + (c.toNat - 65536) / 1024, 56320 + (c.toNat - 65536) % 1024]

/-- Modelled from the spec: the "encoded length" of `util::string::to_char16` is
the number of these code units. -/
def utf16 (text : List Char) : List Nat :=
  text.flatMap utf16Char

/-- Modelled from the spec: `util::string::to_char16` (declared in
`util/String.h`): "`to_wide(text, maxLen) -> bounded wide buffer` fails
(returns no value) if `text` encoded length ≥ `maxLen` (room for a terminator
is mandatory)".  On success the buffer of `maxLen` units holds the code units
of the text, then terminators. -/
def to_char16 (text : List Char) (maxLen : Nat) : Option (List Nat) :=
  if (utf16 text).length ≥ maxLen then none
  else some (utf16 text ++ List.replicate (maxLen - (utf16 text).length) 0)

/-- The bytes of an array of `char16_t`. -/
def unitsBytes (units : List Nat) : List UInt8 :=
  units.flatMap (leBytes 2)

/-- The array of `char16_t` held by a byte string. -/
def bytesUnits : List UInt8 → List Nat
  | a :: b :: rest => leVal [a, b] :: bytesUnits rest
  | _ => []

/-- The member `item.name`, as code units. -/
def itemName (L : Layout) (item : List UInt8) : List Nat :=
  bytesUnits (readBytes item L.nameOff (2 * L.maxName))

/-- The member `item.image_path`, as code units. -/
def itemPath (L : Layout) (item : List UInt8) : List Nat :=
  bytesUnits (readBytes item L.pathOff (2 * L.maxPath))

/-- The call `to_char16(text, item.name, RK_V286_MAX_NAME_SIZE)`: the item
after the call and the value returned.  A failed call "returns no value":
the buffer is left as it was. -/
def setName (L : Layout) (item : List UInt8) (text : List Char) : List UInt8 × Bool :=
  match to_char16 text L.maxName with
  | some buf => (writeBytes item L.nameOff (unitsBytes buf), true)
  | none => (item, false)

/-- The call `to_char16(text, item.image_path, RK_V286_MAX_PATH_SIZE)`. -/
def setPath (L : Layout) (item : List UInt8) (text : List Char) : List UInt8 × Bool :=
  match to_char16 text L.maxPath with
  | some buf => (writeBytes item L.pathOff (unitsBytes buf), true)
  | none => (item, false)

/-! ## Input streams -/

/-- An input stream: the characters not yet extracted and two state bits. -/
structure IStream where
  rest : List Char
  eofbit : Bool
  failbit : Bool
deriving DecidableEq, Repr

/-- A stream freshly opened on a text. -/
def IStream.open (text : List Char) : IStream :=
  { rest := text, eofbit := false, failbit := false }

/-- The characters before the first `delim`, the characters after it, and
whether a `delim` was met before the end. -/
def untilDelim (delim : Char) : List Char → List Char × List Char × Bool
  | [] => ([], [], false)
  | c :: cs =>
    if c = delim then ([], cs, true)
    else ((c :: (untilDelim delim cs).1), (untilDelim delim cs).2.1, (untilDelim delim cs).2.2)

/-- The call `std::getline(stream, str, delim)`: the stream and `str` after it.
On a stream that is no longer good the sentry fails: `failbit` is set and `str`
is left as it was.  Otherwise `str` is erased and characters are extracted up
to the delimiter (extracted, not stored) or to the end of the input, which
sets `eofbit`; extracting nothing at all sets `failbit`. -/
def getline (stream : IStream) (str : List Char) (delim : Char) : IStream × List Char :=
  if stream.eofbit || stream.failbit then ({ stream with failbit := true }, str)
  else if (untilDelim delim stream.rest).2.2 then
    ({ rest := (untilDelim delim stream.rest).2.1, eofbit := false, failbit := false },
      (untilDelim delim stream.rest).1)
  else
    ({ rest := [], eofbit := true, failbit := stream.rest.isEmpty }, stream.rest)

/-! ## The boot-log converter -/

/-- The enumeration `RKConvertParamErrorCode`. -/
inductive RKConvertParamErrorCode where
  | FileNotExists
  | UnableToOpenFile
  | MtdPartsNotFound
  | IllegalMtdPartFormat
deriving DecidableEq, Repr

/-- The structure `AutoScanArgument`; `pfx` is its member `prefix`. -/
structure AutoScanArgument where
  enabled : Bool
  pfx : List Char
deriving DecidableEq, Repr

/-- What the file system answers about the directory of the log: whether
`MiniLoaderAll.bin` exists there, and the directory entries in iteration
order, each a file name with `is_regular_file()`. -/
structure BaseDir where
  hasLoader : Bool
  entries : List (List Char × Bool)
deriving DecidableEq, Repr

/-- The local structure `Partition` of `fromParameter`. -/
structure Partition where
  name : List Char
  address : Nat
  size : Option Nat
deriving DecidableEq, Repr

/-- The line separator of `std::getline(file, mtdparts)`. -/
def newline : Char := Char.ofNat 10

/-- The line loop of `fromParameter` (`while (std::getline(file, mtdparts))`),
run for at most `fuel` calls of `getline`; the result is `mtdparts` after the loop. -/
def scanLines : Nat → IStream → List Char → List Char
  | 0, _, mtdparts => mtdparts
  | fuel + 1, file, mtdparts =>
    if (getline file mtdparts newline).1.failbit then (getline file mtdparts newline).2
    else
      let line :=
        if starts_with (getline file mtdparts newline).2 "CMDLINE: ".toList then
          remove_prefix (getline file mtdparts newline).2 "CMDLINE: ".toList
        else (getline file mtdparts newline).2
      if starts_with line "mtdparts=".toList then line
      else scanLines fuel (getline file mtdparts newline).1 line

/-- The two delimiter checks on a partition token: the positions of `@`, of
`(` and of the first `)` from there on, or `none` when a check rejects. -/
def delimiters (mtdpart : List Char) : Option (Nat × Nat × Nat) :=
  match find mtdpart '@', find mtdpart '(' with
  | some at_mark_pos, some left_quotation_mark_pos =>
    if at_mark_pos > left_quotation_mark_pos then none
    else
      match findFrom mtdpart ')' left_quotation_mark_pos with
      | some right_quotation_mark_pos =>
        some (at_mark_pos, left_quotation_mark_pos, right_quotation_mark_pos)
      | none => none
  | _, _ => none

/-- The body of the token loop of `fromParameter`: one partition token. -/
def parsePartition (mtdpart : List Char) : Except RKConvertParamErrorCode Partition :=
  match delimiters mtdpart with
  | none => .error .IllegalMtdPartFormat
  | some (at_mark_pos, left_quotation_mark_pos, _) =>
    let name :=
      substr mtdpart (left_quotation_mark_pos + 1) (mtdpart.length - left_quotation_mark_pos - 2)
    let size_str := substr mtdpart 0 at_mark_pos
    let address_str := substr mtdpart (at_mark_pos + 1) 10
    match to_uint32 address_str with
    | none => .error .IllegalMtdPartFormat
    | some address =>
      if size_str ≠ "-".toList then
        match to_uint32 size_str with
        | none => .error .IllegalMtdPartFormat
        | some size => .ok { name := name, address := address, size := some size }
      else
        .ok { name := remove_suffix name ":grow".toList, address := address, size := none }

/-- The token loop of `fromParameter`
(`while (std::getline(mtdparts_stream, mtdpart, ','))`), run for at most
`fuel` calls of `getline`: the partitions parsed, or the error of the first
token that is rejected. -/
def parseParts : Nat → IStream → List Char → List Partition →
    Except RKConvertParamErrorCode (List Partition)
  | 0, _, _, parts => .ok parts
  | fuel + 1, stream, mtdpart, parts =>
    if (getline stream mtdpart ',').1.failbit then .ok parts
    else
      match parsePartition (getline stream mtdpart ',').2 with
      | .error e => .error e
      | .ok part =>
        parseParts fuel (getline stream mtdpart ',').1 (getline stream mtdpart ',').2
          (parts ++ [part])

/-- The lambda `scan` of `fromParameter`: the name of the first regular file of
the directory that starts with `potential_image_name`, empty when there is none. -/
def scan (dir : BaseDir) (potential_image_name : List Char) : List Char :=
  match dir.entries.find? (fun entry => entry.2 && starts_with entry.1 potential_image_name) with
  | some entry => entry.1
  | none => []

/-- The image file chosen for a partition when auto-scan is enabled. -/
def potentialImagePath (dir : BaseDir) (name : List Char) : List Char :=
  if (scan dir name).isEmpty then
    scan dir ( remove_suffix ( remove_suffix name "_a".toList) "_b".toList)
  else scan dir name

/-- The body of the item loop of `fromParameter`: the item built for one
partition, or the error when its name does not fit. -/
def partItem (L : Layout) (auto_scan_args : AutoScanArgument) (dir : BaseDir)
    (part : Partition) : Except RKConvertParamErrorCode (List UInt8) :=
  if !(setName L (defaultItem L) part.name).2 then .error .IllegalMtdPartFormat
  else
    let item := (setName L (defaultItem L) part.name).1
    let item :=
      if auto_scan_args.enabled && !(potentialImagePath dir part.name).isEmpty then
        (setPath L item (auto_scan_args.pfx ++ potentialImagePath dir part.name)).1
      else item
    .ok (L.selectedF.set (L.addressF.set item part.address) 1)

/-- The item loop of `fromParameter` (`for (auto& part : parts)`). -/
def addParts (L : Layout) (auto_scan_args : AutoScanArgument) (dir : BaseDir) :
    List Partition → RKCfgFile → Except RKConvertParamErrorCode RKCfgFile
  | [], result => .ok result
  | part :: parts, result =>
    match partItem L auto_scan_args dir part with
    | .error e => .error e
    | .ok item => addParts L auto_scan_args dir parts (result.addItem L item true)

/-- The default item `loader` of `fromParameter`. -/
def loaderItem (L : Layout) (auto_scan_args : AutoScanArgument) (dir : BaseDir) : List UInt8 :=
  let loader := (setName L (defaultItem L) "Loader".toList).1
  let loader :=
    if auto_scan_args.enabled && dir.hasLoader then
      (setPath L loader (auto_scan_args.pfx ++ "MiniLoaderAll.bin".toList)).1
    else loader
  L.selectedF.set (L.addressF.set loader 0) 1

/-- The default item `parameter` of `fromParameter`. -/
def parameterItem (L : Layout) (auto_scan_args : AutoScanArgument) (path : List Char) :
    List UInt8 :=
  let parameter := (setName L (defaultItem L) "parameter".toList).1
  let parameter :=
    if auto_scan_args.enabled then (setPath L parameter (auto_scan_args.pfx ++ path)).1
    else parameter
  L.selectedF.set (L.addressF.set parameter 0) 1

/-- The converter `RKCfgFile::fromParameter`; `file` is what `path` leads to
and `dir` describes the directory of the log. -/
def RKCfgFile.fromParameter (L : Layout) (path : List Char) (file : Option (DiskFile Char))
    (dir : BaseDir) (auto_scan_args : AutoScanArgument) :
    Except RKConvertParamErrorCode RKCfgFile :=
  match file with
  | none => .error .FileNotExists
  | some f =>
    if !f.openable then .error .UnableToOpenFile
    else
      let mtdparts := scanLines (f.content.length + 2) (IStream.open f.content) []
      if mtdparts.isEmpty then .error .MtdPartsNotFound
      else
        match find mtdparts ':' with
        | none => .error .IllegalMtdPartFormat
        | some first_quotation_mark_pos =>
          let specs := mtdparts.drop (first_quotation_mark_pos + 1)
          match parseParts (specs.length + 1) (IStream.open specs) [] [] with
          | .error e => .error e
          | .ok parts =>
            addParts L auto_scan_args dir parts
              (((RKCfgFile.empty L).addItem L (loaderItem L auto_scan_args dir) true).addItem L
                (parameterItem L auto_scan_args path) true)

/-- The buffer that `to_char16` leaves for a text that fits `maxLen` units:
the code units of the text, then terminators. -/
def wideBuffer (text : List Char) (maxLen : Nat) : List Nat :=
  utf16 text ++ List.replicate (maxLen - (utf16 text).length) 0

/-- The item is selected, lies at `address`, and its name member holds the
code units of `name` followed by terminators. -/
def describes (L : Layout) (item : List UInt8) (name : List Char) (address : Nat) : Prop :=
  itemName L item = wideBuffer name L.maxName ∧ L.addressF.get item = address ∧
    L.selectedF.get item = 1

instance (L : Layout) (item : List UInt8) (name : List Char) (address : Nat) :
    Decidable (describes L item name address) := by
  unfold describes; infer_instance

/-- The value of `mtdparts` after the line loop of `fromParameter`. -/
def mtdpartsLine (content : List Char) : List Char :=
  scanLines (content.length + 2) (IStream.open content) []

/-- The strings that the successive calls `std::getline(stream, mtdpart, ',')`
of the token loop yield, for at most `fuel` calls. -/
def splitTokens : Nat → IStream → List Char → List (List Char)
  | 0, _, _ => []
  | fuel + 1, stream, mtdpart =>
    if (getline stream mtdpart ',').1.failbit then []
    else
      (getline stream mtdpart ',').2 ::
        splitTokens fuel (getline stream mtdpart ',').1 (getline stream mtdpart ',').2

/-- The partition tokens of a line `mtdparts`: what follows its first `:`,
cut at the commas as the token loop does. -/
def partTokens (mtdparts : List Char) : List (List Char) :=
  match find mtdparts ':' with
  | none => []
  | some first_quotation_mark_pos =>
    splitTokens ((mtdparts.drop (first_quotation_mark_pos + 1)).length + 1)
      (IStream.open (mtdparts.drop (first_quotation_mark_pos + 1))) []

/-- The four delimiter defects of a partition token: no `@`, no `(`, the
first `@` after the first `(`, or no `)` from that `(` on. -/
def delimiterDefect (token : List Char) : Prop :=
  '@' ∉ token ∨ '(' ∉ token ∨ token.indexOf '(' < token.indexOf '@' ∨
    ')' ∉ token.drop (token.indexOf '(')

instance (token : List Char) : Decidable (delimiterDefect token) := by
  unfold delimiterDefect; infer_instance

/-- The number of calls of `getline` after which a loop `while (getline(...))`
on the stream has ended: one on a stream that is no longer good, otherwise one
more than the characters left. -/
def IStream.budget (stream : IStream) : Nat :=
  if stream.eofbit || stream.failbit then 1 else stream.rest.length + 1

/-- The `n` consecutive records of `size` bytes that a byte string starts with. -/
def chunksOf (size : Nat) : Nat → List UInt8 → List (List UInt8)
  | 0, _ => []
  | n + 1, bs => bs.take size :: chunksOf size n (bs.drop size)

/-- A line of the log once its marker `CMDLINE: `, if it has one, is removed:
the first statement of the body of the line loop. -/
def stripMarker (line : List Char) : List Char :=
  if starts_with line "CMDLINE: ".toList then remove_prefix line "CMDLINE: ".toList else line

/-- The line is the one the line loop stops at: without its marker it begins
with `mtdparts=`. -/
def selects (line : List Char) : Bool :=
  starts_with (stripMarker line) "mtdparts=".toList

/-- The text of some lines, each closed by a line end. -/
def linesText (lines : List (List Char)) : List Char :=
  lines.flatMap (fun l => l ++ [newline])

/-! ## The structured-text codec -/

/-- Modelled from the spec: the character that `util::string::from_char16`
(declared in `util/String.h`) reads from one code unit that is not part of a
surrogate pair; an unpaired surrogate gives the replacement character. -/
def unitChar (u : Nat) : Char :=
  if 55296 ≤ u ∧ u < 57344 then Char.ofNat 65533 else Char.ofNat u

/-- Modelled from the spec: the text that `util::string::from_char16` decodes
from UTF-16 code units ("must losslessly decode the two-byte code units used
in the on-disk name/path fields"). -/
def decode16 : List Nat → List Char
  | [] => []
  | [u] => [unitChar u]
  | u :: v :: rest =>
    if 55296 ≤ u ∧ u < 56320 ∧ 56320 ≤ v ∧ v < 57344 then
      Char.ofNat (65536 + (u - 55296) * 1024 + (v - 56320)) :: decode16 rest
    else unitChar u :: decode16 (v :: rest)

/-- Modelled from the spec: `util::string::from_char16` (declared in
`util/String.h`): "`from_wide(buffer) -> text` always succeeds, stopping at
the first terminator or at `maxLen`". -/
def from_char16 (buffer : List Nat) : List Char :=
  decode16 (buffer.takeWhile (fun u => u != 0))

/-- A document of the JSON library, as `json::parse` returns it and as `dump`
takes it; numbers are integers. -/
inductive Json where
  | null
  | bool (b : Bool)
  | num (n : Int)
  | str (s : List Char)
  | arr (elems : List Json)
  | obj (members : List (List Char × Json))

/-- How an access to a document goes wrong: the library throws a
`json::exception`, or the behaviour is undefined. -/
inductive JsonFault where
  | thrown
  | undefined
deriving DecidableEq, Repr

/-- The access `j[key]` on a constant document: the member of an object; the
behaviour is undefined when the object has no such member, and the library
throws on anything but an object. -/
def Json.member (j : Json) (key : List Char) : Except JsonFault Json :=
  match j with
  | .obj members =>
    match members.lookup key with
    | some v => .ok v
    | none => .error .undefined
  | _ => .error .thrown

/-- The values that `for (auto& x : j)` visits: the elements of an array, the
values of an object, nothing for `null`, the value itself otherwise. -/
def Json.elements (j : Json) : List Json :=
  match j with
  | .arr elems => elems
  | .obj members => members.map (fun m => m.2)
  | .null => []
  | other => [other]

/-- The conversion of a document to `std::string`: the library throws unless
it is a string. -/
def Json.text (j : Json) : Except JsonFault (List Char) :=
  match j with
  | .str s => .ok s
  | _ => .error .thrown

/-- The conversion of a document to an integer member: a number, or a
boolean as 0 or 1; the library throws on anything else.  The member
`is_selected` is taken to be an integer too, as the cast `(bool)item.is_selected`
of `toJson` suggests. -/
def Json.number (j : Json) : Except JsonFault Int :=
  match j with
  | .num n => .ok n
  | .bool b => .ok (if b then 1 else 0)
  | _ => .error .thrown

/-- The comparison `value == j` of an unsigned member with a document: true
for the number of that value only. -/
def Json.equalsNumber (j : Json) (value : Nat) : Bool :=
  match j with
  | .num n => n == Int.ofNat value
  | _ => false

/-- The expression `item_data[key]` converted to `std::string`. -/
def Json.textAt (j : Json) (key : List Char) : Except JsonFault (List Char) :=
  match j.member key with
  | .ok v => v.text
  | .error e => .error e

/-- The expression `item_data[key]` converted to an integer member. -/
def Json.numberAt (j : Json) (key : List Char) : Except JsonFault Int :=
  match j.member key with
  | .ok v => v.number
  | .error e => .error e

/-- The value that an integer member of `width` bytes takes from a number of
the document (the conversion wraps). -/
def memberValue (width : Nat) (n : Int) : Nat :=
  (n % (256 ^ width : Int)).toNat

/-- The body of the item loop of `fromJson`: the item built from one declared
item.  The values that `to_char16` returns are not looked at. -/
def itemOfJson (L : Layout) (item_data : Json) : Except JsonFault (List UInt8) :=
  match item_data.textAt "name".toList with
  | .error e => .error e
  | .ok name =>
    match item_data.textAt "image_path".toList with
    | .error e => .error e
    | .ok image_path =>
      match item_data.numberAt "address".toList with
      | .error e => .error e
      | .ok address =>
        match item_data.numberAt "is_selected".toList with
        | .error e => .error e
        | .ok is_selected =>
          .ok
            (L.selectedF.set
              (L.addressF.set
                (setPath L (setName L (defaultItem L) name).1 image_path).1
                (memberValue L.addressF.width address))
              (memberValue L.selectedF.width is_selected))

/-- The item loop of `fromJson` (`for (auto& item_data : data["items"])`). -/
def addJsonItems (L : Layout) : List Json → RKCfgFile → Except JsonFault RKCfgFile
  | [], file => .ok file
  | item_data :: rest, file =>
    match itemOfJson L item_data with
    | .error e => .error e
    | .ok item => addJsonItems L rest (file.addItem L item true)

/-- The `try` block of `fromJson` on the parsed document `data`: the value
returned, or how an access to the document went wrong. -/
def fromJsonData (L : Layout) (data : Json) :
    Except JsonFault (Except RKCfgLoadErrorCode RKCfgFile) :=
  match data.member "header".toList with
  | .error e => .error e
  | .ok header =>
    match header.member "size".toList with
    | .error e => .error e
    | .ok size =>
      if !size.equalsNumber (L.beginF.get (RKCfgFile.empty L).m_header) then
        .ok (.error .UnsupportedHeaderSize)
      else
        match header.member "item_size".toList with
        | .error e => .error e
        | .ok item_size =>
          if !item_size.equalsNumber (L.itemSizeF.get (RKCfgFile.empty L).m_header) then
            .ok (.error .UnsupportedItemSize)
          else
            match data.member "items".toList with
            | .error e => .error e
            | .ok items =>
              match addJsonItems L items.elements (RKCfgFile.empty L) with
              | .error e => .error e
              | .ok file => .ok (.ok file)

/-- What the file system holds under the path of a structured-text file: the
document that `json::parse` reads from it (`none` when the text does not
parse) and whether a stream opens on it. -/
structure JsonFile where
  document : Option Json
  openable : Bool

/-- The loader `RKCfgFile::fromJson`; `file` is what the path leads to.  There
is no result (`none`) when the behaviour of an access to the document is
undefined; an exception of the library is caught and gives `JsonParseError`. -/
def RKCfgFile.fromJson (L : Layout) (file : Option JsonFile) :
    Option (Except RKCfgLoadErrorCode RKCfgFile) :=
  match file with
  | none => some (.error .FileNotExists)
  | some f =>
    if !f.openable then some (.error .UnableToOpenFile)
    else
      match f.document with
      | none => some (.error .JsonParseError)
      | some data =>
        match fromJsonData L data with
        | .ok result => some result
        | .error .thrown => some (.error .JsonParseError)
        | .error .undefined => none

/-- The document that `toJson` makes of one item (an object, its members
sorted by key). -/
def itemJson (L : Layout) (item : List UInt8) : Json :=
  .obj
    [("address".toList, .num (Int.ofNat (L.addressF.get item))),
      ("image_path".toList, .str (from_char16 (itemPath L item))),
      ("is_selected".toList, .bool (L.selectedF.get item != 0)),
      ("name".toList, .str (from_char16 (itemName L item)))]

/-- The method `RKCfgFile::toJson`.  The member `items` comes into being with
the first `emplace_back`: a configuration without items gives a document
without that member. -/
def RKCfgFile.toJson (L : Layout) (c : RKCfgFile) : Json :=
  if c.m_items.isEmpty then
    .obj
      [("header".toList,
        .obj
          [("item_size".toList, .num (Int.ofNat (L.itemSizeF.get c.m_header))),
            ("size".toList, .num (Int.ofNat (L.beginF.get c.m_header)))])]
  else
    .obj
      [("header".toList,
        .obj
          [("item_size".toList, .num (Int.ofNat (L.itemSizeF.get c.m_header))),
            ("size".toList, .num (Int.ofNat (L.beginF.get c.m_header)))]),
        ("items".toList, .arr (c.m_items.map (itemJson L)))]

/-- The structured-text branch of `RKCfgFile::save`: the document handed to
`dump`; `openable` tells whether the destination opens. -/
def RKCfgFile.saveJson (L : Layout) (c : RKCfgFile) (openable : Bool) :
    Except RKCfgSaveErrorCode Json :=
  if !openable then .error .UnableToOpenFile
  else .ok (c.toJson L)

/-- The file that `save` leaves in structured-text mode, read back: the text
layer of the library (`dump`, then `json::parse`) gives the document again. -/
def savedJsonFile (L : Layout) (c : RKCfgFile) : JsonFile :=
  { document := some (c.toJson L), openable := true }

/-- The item that the body of the item loop of `fromJson` builds from the four
values it reads. -/
def builtItem (L : Layout) (name image_path : List Char) (address is_selected : Int) :
    List UInt8 :=
  L.selectedF.set
    (L.addressF.set (setPath L (setName L (defaultItem L) name).1 image_path).1
      (memberValue L.addressF.width address))
    (memberValue L.selectedF.width is_selected)

/-- The four values that the body of the item loop of `fromJson` reads from a
declared item: name, image path, address and flag. -/
def reads (item_data : Json) (values : List Char × List Char × Int × Int) : Prop :=
  item_data.textAt "name".toList = .ok values.1 ∧
    item_data.textAt "image_path".toList = .ok values.2.1 ∧
    item_data.numberAt "address".toList = .ok values.2.2.1 ∧
    item_data.numberAt "is_selected".toList = .ok values.2.2.2

/-- The buffer of `maxLen` units holds a text without `NUL` and a terminator
behind it. -/
def holdsText (buffer : List Nat) (maxLen : Nat) : Prop :=
  ∃ (text : List Char) (tail : List Nat), (∀ c ∈ text, c.toNat ≠ 0) ∧
    (utf16 text).length < maxLen ∧ buffer = utf16 text ++ 0 :: tail

/-- Two items are equivalent: the same flag, the same address, the same
decoded name and the same decoded image path. -/
def equivalent (L : Layout) (a b : List UInt8) : Prop :=
  (L.selectedF.get a != 0) = (L.selectedF.get b != 0) ∧
    L.addressF.get a = L.addressF.get b ∧
    from_char16 (itemName L a) = from_char16 (itemName L b) ∧
    from_char16 (itemPath L a) = from_char16 (itemPath L b)

instance (L : Layout) (a b : List UInt8) : Decidable (equivalent L a b) := by
  unfold equivalent; infer_instance

/-! ## A sample layout -/

/-- A layout on which the model is evaluated: a 12-byte header (`magic` at 0,
`begin` at 4, `item_size` at 8, `length` at 10) and an 88-byte item
(`is_selected` at 0, `address` at 4, sixteen units of `name` at 8, twenty-four
units of `image_path` at 40). -/
def sampleLayout : Layout :=
  { headerSize := 12, itemSize := 88, magicOff := 0
    beginF := ⟨4, 4⟩, itemSizeF := ⟨8, 2⟩, lengthF := ⟨10, 2⟩
    selectedF := ⟨0, 1⟩, addressF := ⟨4, 4⟩
    maxName := 16, nameOff := 8, maxPath := 24, pathOff := 40 }

/-- A second layout, with wider header members: a 16-byte header (`magic` at 0,
`begin` at 4, `item_size` at 8, `length` at 12, four bytes each) and the
88-byte item of the sample layout.  The product of the size test is taken in a
four-byte unsigned type. -/
def wideLayout : Layout :=
  { headerSize := 16, itemSize := 88, magicOff := 0
    beginF := ⟨4, 4⟩, itemSizeF := ⟨8, 4⟩, lengthF := ⟨12, 4⟩
    selectedF := ⟨0, 1⟩, addressF := ⟨4, 4⟩
    maxName := 16, nameOff := 8, maxPath := 24, pathOff := 40 }

instance (L : Layout) (c : RKCfgFile) : Decidable (c.sized L) := by
  unfold RKCfgFile.sized; infer_instance

/-! ## Sample inputs -/

/-- A configuration of two items built with the mutators. -/
def sampleConfig : RKCfgFile :=
  ((RKCfgFile.empty sampleLayout).addItem sampleLayout (List.replicate 88 7) true).addItem
    sampleLayout (defaultItem sampleLayout) true

/-- A header of the sample layout that announces one item and whose `begin`
member is 0 instead of 12. -/
def shiftedHeader : List UInt8 := [67, 70, 71, 0, 0, 0, 0, 0, 88, 0, 1, 0]

/-- A file of the legal size for one item under `shiftedHeader`. -/
def shiftedFile : List UInt8 := shiftedHeader ++ List.replicate 88 1

/-- The configuration that `fromFile` returns on `shiftedFile`: its only item
is read from offset 0, so it starts with the bytes of the header. -/
def shiftedConfig : RKCfgFile :=
  { m_header := shiftedHeader, m_items := [shiftedHeader ++ List.replicate 76 1] }

/-- A file of the wide layout made of a header alone: magic tag `CFG`, `begin`
16, `item_size` 88 and a count of `2 ^ 29` items (`32 * 2 ^ 24`), for which
`88 * 2 ^ 29` is `11 * 2 ^ 32`. -/
def wrapFile : List UInt8 := [67, 70, 71, 0, 16, 0, 0, 0, 88, 0, 0, 0, 0, 0, 0, 32]

/-- A configuration of the wide layout with `2 ^ 29` items, all of them in
their initial state, under the header of `wrapFile`. -/
def wrapConfig : RKCfgFile :=
  { m_header := wrapFile, m_items := List.replicate (2 ^ 29) (defaultItem wideLayout) }

/-- A file made of a header alone, announcing no item, whose `begin` member is
40 instead of 12. -/
def farBeginFile : List UInt8 := [67, 70, 71, 0, 40, 0, 0, 0, 88, 0, 0, 0]

/-- Four distinguishable item records of the sample layout. -/
def itemA : List UInt8 := List.replicate 88 1

/-- The second of the four sample items. -/
def itemB : List UInt8 := List.replicate 88 2

/-- The third of the four sample items. -/
def itemC : List UInt8 := List.replicate 88 3

/-- The fourth of the four sample items. -/
def itemD : List UInt8 := List.replicate 88 4

/-- The configuration with the items A, B, C, D. -/
def configABCD : RKCfgFile :=
  ((((RKCfgFile.empty sampleLayout).addItem sampleLayout itemA true).addItem sampleLayout itemB
    true).addItem sampleLayout itemC true).addItem sampleLayout itemD true

/-- A filter that matches the items B and D, whatever their position. -/
def filterBD : ItemFilter := fun _ item => item == itemB || item == itemD

/-- A sequence of calls that uses every mutator, all indices in range. -/
def sampleCalls : List Call :=
  [.addItem itemA true, .addItemAt itemB 0 true, .addItem itemD true,
    .removeItemIf [filterBD], .updateItem 0 itemC, .addItem itemD true, .removeItem 0]

/-- The configuration left by `sampleCalls`. -/
def sampleCallsResult : RKCfgFile :=
  { m_header := [67, 70, 71, 0, 12, 0, 0, 0, 88, 0, 1, 0], m_items := [itemD] }

/-- The boot log of the specification, one line without a line end. -/
def claimLog : DiskFile Char :=
  { content :=
      "CMDLINE: mtdparts=rk29xxnand:0x00002000@0x00004000(uboot),-@0x0123a000(userdisk:grow)".toList
    openable := true }

/-- The two partitions of `claimLog`. -/
def claimParts : List Partition :=
  [{ name := "uboot".toList, address := 16384, size := some 8192 },
    { name := "userdisk".toList, address := 19111936, size := none }]

/-- A directory without any file. -/
def emptyDir : BaseDir := { hasLoader := false, entries := [] }

/-- Auto-scan switched off. -/
def noScan : AutoScanArgument := { enabled := false, pfx := [] }

/-- A log whose second partition token has no `@`. -/
def noAtLog : DiskFile Char :=
  { content := "mtdparts=rk29xxnand:0x00002000@0x00004000(uboot),0x0123a000(userdisk)".toList ++
      [newline]
    openable := true }

/-- A log whose partition name has sixteen characters, the bound of the name
member in the sample layout. -/
def longNameLog : DiskFile Char :=
  { content := "mtdparts=rk29xxnand:0x00002000@0x00004000(abcdefghijklmnop)".toList ++ [newline]
    openable := true }

/-- A partition token with a flag behind the closing parenthesis. -/
def flaggedToken : List Char := "0x00002000@0x00004000(uboot)ro".toList

/-- A log of one line that does not mention `mtdparts=` and has no line end. -/
def unterminatedLog : DiskFile Char :=
  { content := "console=ttyFIQ0 androidboot.console=ttyFIQ0".toList, openable := true }

/-- A log of two lines without `mtdparts=` whose last line has no line end and
reads like a partition table. -/
def strayTableLog : DiskFile Char :=
  { content := "CMDLINE: console=ttyFIQ0".toList ++ [newline] ++
      "parts:0x00002000@0x00004000(uboot)".toList
    openable := true }

/-- A filter that looks at the position only and matches the positions 1 and 3. -/
def filterAt13 : ItemFilter := fun idx _ => idx == 1 || idx == 3

/-- A log in which two lines without `mtdparts=`, one of them with the marker
`CMDLINE: `, come before the line of `claimLog`, and one more line after it. -/
def surroundedLog : DiskFile Char :=
  { content := linesText ["U-Boot 2017.09".toList, "CMDLINE: console=ttyFIQ0".toList] ++
      claimLog.content ++ newline :: "mtdparts=other:0x1@0x2(x)".toList
    openable := true }

/-- A log path that, behind the prefix `images/`, has thirty characters: more
than the twenty-four units of the path member of the sample layout. -/
def longPath : List Char := "logs/2024/parameter.txt".toList

/-- Auto-scan switched on with the prefix `images/`. -/
def imagesScan : AutoScanArgument := { enabled := true, pfx := "images/".toList }

/-- A document with the compiled sizes of the sample layout and one item
whose name has sixteen characters, the bound of the name member. -/
def overlongNameDoc : Json :=
  .obj
    [("header".toList, .obj [("item_size".toList, .num 88), ("size".toList, .num 12)]),
      ("items".toList,
        .arr
          [.obj
            [("address".toList, .num 16384), ("image_path".toList, .str "uboot.img".toList),
              ("is_selected".toList, .bool true),
              ("name".toList, .str "abcdefghijklmnop".toList)]])]

/-- The configuration that `fromParameter` makes of the log of the
specification, auto-scan switched on with the prefix `images/`. -/
def claimConfig : RKCfgFile :=
  match RKCfgFile.fromParameter sampleLayout "parameter.txt".toList (some claimLog) emptyDir
      imagesScan with
  | .ok c => c
  | .error _ => RKCfgFile.empty sampleLayout

/-- A configuration of two items whose names and image paths hold text: a
selected `uboot` with the image `uboot.img` at 0x4000 and an unselected
`userdisk` without image at 0x0123a000. -/
def textConfig : RKCfgFile :=
  ((RKCfgFile.empty sampleLayout).addItem sampleLayout
    (builtItem sampleLayout "uboot".toList "uboot.img".toList 16384 1) true).addItem sampleLayout
    (builtItem sampleLayout "userdisk".toList [] 19111936 0) true

/-- A configuration with one item whose name member is filled with sixteen
letters and no terminator, as a binary file may hold it. -/
def fullNameConfig : RKCfgFile :=
  (RKCfgFile.empty sampleLayout).addItem sampleLayout
    (writeBytes (defaultItem sampleLayout) 8 (unitsBytes (List.replicate 16 97))) true

/-! ## Lemmas on the object representation -/

theorem length_leBytes (w v : Nat) : (leBytes w v).length = w := by
  induction w generalizing v with
  | zero => rfl
  | succ w ih => simp [leBytes, ih]

theorem leVal_leBytes (w v : Nat) : leVal (leBytes w v) = v % 256 ^ w := by
  induction w generalizing v with
  | zero => simp [leBytes, leVal, Nat.mod_one]
  | succ w ih =>
    have h : (UInt8.ofNat (v % 256)).toNat = v % 256 :=
      UInt8.toNat_ofNat_of_lt (Nat.mod_lt _ (by decide))
    rw [leBytes, leVal, ih, h, pow_succ, Nat.mul_comm (256 ^ w) 256, Nat.mod_mul]

theorem leVal_lt (bs : List UInt8) : leVal bs < 256 ^ bs.length := by
  induction bs with
  | nil => simp [leVal]
  | cons b bs ih =>
    have hb : b.toNat < 256 := UInt8.toNat_lt_size b
    rw [leVal, List.length_cons, pow_succ]
    omega

theorem length_readBytes (bs : List UInt8) (off n : Nat) (h : off + n ≤ bs.length) :
    (readBytes bs off n).length = n := by
  simp [readBytes]; omega

theorem length_writeBytes (bs new : List UInt8) (off : Nat) (h : off + new.length ≤ bs.length) :
    (writeBytes bs off new).length = bs.length := by
  simp [writeBytes]; omega

theorem readBytes_writeBytes_same (bs new : List UInt8) (off : Nat)
    (h : off + new.length ≤ bs.length) :
    readBytes (writeBytes bs off new) off new.length = new := by
  have h1 : (bs.take off).length = off := by simp; omega
  unfold readBytes writeBytes
  rw [List.append_assoc, List.drop_append_of_le_length (by omega)]
  rw [List.drop_of_length_le (by omega), List.nil_append, List.take_left']
  rfl

theorem readBytes_writeBytes_apart (bs new : List UInt8) (off o n : Nat)
    (h : off + new.length ≤ bs.length) (hd : apart off new.length o n) :
    readBytes (writeBytes bs off new) o n = readBytes bs o n := by
  apply List.ext_getElem?
  intro i
  unfold readBytes writeBytes apart at *
  simp only [List.getElem?_take, List.getElem?_drop, List.getElem?_append, List.length_append,
    List.length_take]
  by_cases hi : i < n
  · simp only [hi, if_true]
    rcases hd with hd | hd
    · have e1 : min off bs.length = off := by omega
      rw [e1]
      have : ¬ (o + i < off + new.length) := by omega
      have h2 : ¬ (o + i < off) := by omega
      simp only [this, if_false, h2]
      congr 1; omega
    · have e1 : min off bs.length = off := by omega
      rw [e1]
      have : (o + i < off + new.length) := by omega
      have h2 : (o + i < off) := by omega
      simp only [this, if_true, h2]
  · simp [hi]

/-! ## Lemmas on the binary loader -/

theorem loadItems_header (L : Layout) (content : List UInt8) (n idx : Nat) (failed : Bool)
    (r : RKCfgFile) : (loadItems L content n idx failed r).m_header = r.m_header := by
  induction n generalizing idx failed r with
  | zero => rfl
  | succ n ih => rw [loadItems, ih]; rfl

theorem loadItems_length (L : Layout) (content : List UInt8) (n idx : Nat) (failed : Bool)
    (r : RKCfgFile) :
    (loadItems L content n idx failed r).m_items.length = r.m_items.length + n := by
  induction n generalizing idx failed r with
  | zero => rfl
  | succ n ih => rw [loadItems, ih]; simp [RKCfgFile.addItem]; omega

theorem length_flatten_sized (items : List (List UInt8)) (size : Nat)
    (h : ∀ item ∈ items, item.length = size) : items.flatten.length = items.length * size := by
  induction items with
  | nil => simp
  | cons x xs ih =>
    have hx : x.length = size := h x (List.mem_cons_self _ _)
    have hxs : ∀ item ∈ xs, item.length = size := fun i hi => h i (List.mem_cons_of_mem _ hi)
    simp [ih hxs, hx, Nat.succ_mul]; omega

theorem readBytes_record (header : List UInt8) (pre rest : List (List UInt8)) (x : List UInt8)
    (size : Nat) (hpre : ∀ item ∈ pre, item.length = size) (hx : x.length = size) :
    readBytes (header ++ (pre ++ x :: rest).flatten) (header.length + pre.length * size) size
      = x := by
  unfold readBytes
  rw [List.drop_append, List.flatten_append, List.flatten_cons,
    ← length_flatten_sized pre size hpre, List.drop_left, ← hx, List.take_left]

theorem loadItems_saved (L : Layout) (header : List UInt8) (rest pre : List (List UInt8))
    (r : RKCfgFile) (hh : header.length = L.headerSize)
    (hb : L.beginF.get r.m_header = L.headerSize)
    (hi : L.itemSizeF.get r.m_header = L.itemSize)
    (hpre : ∀ item ∈ pre, item.length = L.itemSize)
    (hrest : ∀ item ∈ rest, item.length = L.itemSize) (hr : r.m_items = pre) :
    loadItems L (header ++ (pre ++ rest).flatten) rest.length pre.length false r
      = { r with m_items := pre ++ rest } := by
  induction rest generalizing pre r with
  | nil => simp [loadItems, ← hr]
  | cons x xs ih =>
    have hx : x.length = L.itemSize := hrest x (List.mem_cons_self _ _)
    have hxs : ∀ item ∈ xs, item.length = L.itemSize :=
      fun i hi => hrest i (List.mem_cons_of_mem _ hi)
    have hread : readBytes (header ++ (pre ++ x :: xs).flatten)
        (L.headerSize + pre.length * L.itemSize) L.itemSize = x := by
      rw [← hh]; exact readBytes_record header pre xs x L.itemSize hpre hx
    have hitem : readItemAt L (header ++ (pre ++ x :: xs).flatten) false
        (L.beginF.get r.m_header + pre.length * L.itemSizeF.get r.m_header) = (x, false) := by
      rw [hb, hi]
      unfold readItemAt
      rw [if_neg (by simp), hread]
      simp [hx, defaultItem]
    rw [List.length_cons, loadItems, hitem]
    have hpre' : ∀ item ∈ pre ++ [x], item.length = L.itemSize := by
      intro i hi
      rcases List.mem_append.mp hi with h | h
      · exact hpre i h
      · rw [List.mem_singleton.mp h]; exact hx
    have := ih (pre ++ [x]) (r.addItem L x false) (by simpa [RKCfgFile.addItem] using hb)
      (by simpa [RKCfgFile.addItem] using hi) hpre' hxs (by simp [RKCfgFile.addItem, hr])
    simp only [List.length_append, List.length_singleton, List.append_assoc,
      List.singleton_append] at this
    rw [this]
    simp [RKCfgFile.addItem]

theorem sizeProduct_of_fits (L : Layout) (a b : Nat) (h : sizeFits L (a * b)) :
    sizeProduct L a b = some (a * b) := by
  unfold sizeProduct
  unfold sizeFits at h
  by_cases hw : max L.itemSizeF.width L.lengthF.width < 4
  · rw [if_pos hw] at h
    rw [if_pos hw, if_pos h.1]
  · rw [if_neg hw] at h
    rw [if_neg hw, Nat.mod_eq_of_lt h.1]

theorem legalSize_of_fits (L : Layout) (header : List UInt8)
    (h : sizeFits L (L.itemSizeF.get header * L.lengthF.get header)) :
    legalSize L header
      = some (L.headerSize + L.itemSizeF.get header * L.lengthF.get header) := by
  unfold legalSize
  rw [sizeProduct_of_fits L _ _ h]
  simp only
  rw [Nat.mod_eq_of_lt h.2]

/-- What `fromFile` does once the size, the stream, the magic tag and the
item-record-size have passed: it compares the size with `legal_size`. -/
theorem fromFile_of_legalSize (L : Layout) (f : DiskFile UInt8) (legal : Nat)
    (hopen : f.openable = true) (hsize : L.headerSize ≤ f.content.length)
    (hmagic : magicOk L (f.content.take L.headerSize) = true)
    (hitem : L.itemSizeF.get (f.content.take L.headerSize) = L.itemSize)
    (hlegal : legalSize L (f.content.take L.headerSize) = some legal) :
    RKCfgFile.fromFile L (some f)
      = if f.content.length ≠ legal then some (.error .AbnormalFileSize)
        else some (.ok (loadItems L f.content (L.lengthF.get (f.content.take L.headerSize)) 0
          false { m_header := f.content.take L.headerSize, m_items := [] })) := by
  simp only [RKCfgFile.fromFile, RKCfgFile.empty, hopen, hmagic, hitem, hlegal]
  simp [Nat.not_lt.mpr hsize]

theorem length_readItemAt (L : Layout) (content : List UInt8) (failed : Bool) (pos : Nat) :
    (readItemAt L content failed pos).1.length = L.itemSize := by
  unfold readItemAt
  by_cases hf : failed = true
  · simp [hf, defaultItem]
  · simp only [hf, Bool.false_eq_true, if_false]
    simp only [List.length_append, List.length_drop, defaultItem, List.length_replicate,
      readBytes, List.length_take]
    omega

theorem loadItems_sized (L : Layout) (content : List UInt8) (n idx : Nat) (failed : Bool)
    (r : RKCfgFile) (h : ∀ item ∈ r.m_items, item.length = L.itemSize) :
    ∀ item ∈ (loadItems L content n idx failed r).m_items, item.length = L.itemSize := by
  induction n generalizing idx failed r with
  | zero => exact h
  | succ n ih =>
    rw [loadItems]
    apply ih
    intro item hitem
    simp only [RKCfgFile.addItem, List.mem_append, List.mem_singleton] at hitem
    rcases hitem with h0 | h0
    · exact h item h0
    · rw [h0]; exact length_readItemAt L content failed _

/-- When the items are sought at or behind the end of the file, no read gets
a byte and every item keeps its initial value. -/
theorem loadItems_beyond (L : Layout) (content : List UInt8) (n idx : Nat) (failed : Bool)
    (r : RKCfgFile) (h : content.length ≤ L.beginF.get r.m_header) :
    loadItems L content n idx failed r
      = { r with m_items := r.m_items ++ List.replicate n (defaultItem L) } := by
  induction n generalizing idx failed r with
  | zero => simp [loadItems]
  | succ n ih =>
    have hread : (readItemAt L content failed
        (L.beginF.get r.m_header + idx * L.itemSizeF.get r.m_header)).1 = defaultItem L := by
      unfold readItemAt
      by_cases hf : failed = true
      · simp [hf]
      · have hdrop : content.drop (L.beginF.get r.m_header + idx * L.itemSizeF.get r.m_header)
            = [] := List.drop_eq_nil_of_le (by omega)
        simp [hf, readBytes, hdrop]
    rw [loadItems, ih _ _ _ (by simpa [RKCfgFile.addItem] using h), hread]
    simp [RKCfgFile.addItem, List.replicate_succ]

/-- What `fromFile` returns on `wrapFile`: the product `88 * 2 ^ 29` wraps to 0
in its four-byte type, `legal_size` is the header size 16, which is the size
of the file, and every one of the `2 ^ 29` reads meets the end of the file. -/
theorem fromFile_wrapFile :
    RKCfgFile.fromFile wideLayout (some { content := wrapFile, openable := true })
      = some (.ok wrapConfig) := by
  rw [fromFile_of_legalSize wideLayout { content := wrapFile, openable := true } 16 rfl
    (by decide) (by decide) (by decide) (by decide)]
  rw [if_neg (by decide)]
  rw [loadItems_beyond wideLayout wrapFile _ 0 false _ (by decide)]
  rfl

theorem wrapConfig_items_sized :
    ∀ item ∈ wrapConfig.m_items, item.length = wideLayout.itemSize := by
  intro item hitem
  rw [List.eq_of_mem_replicate hitem]
  rfl

theorem length_saved_wrapConfig :
    (wrapFile ++ wrapConfig.m_items.flatten).length = 16 + 88 * 2 ^ 29 := by
  have hn : wrapConfig.m_items.length = 2 ^ 29 := List.length_replicate _ _
  rw [List.length_append,
    length_flatten_sized wrapConfig.m_items wideLayout.itemSize wrapConfig_items_sized, hn]
  rfl

/-! ## The binary codec: claims C1 to C3 -/

/-- C1 (as amended): for every configuration whose records have their compiled
sizes, whose magic tag is `CFG`, whose item-record-size member equals the
compiled item size, whose count member equals the length of the item list,
whose header-length member (`begin`) equals the compiled header size and whose
item records have a total size that the size test of the loader computes
without overflow, saving in binary mode succeeds and loading the saved bytes
returns exactly that configuration: the same header, the same items in the
same order. -/
theorem C1_save_then_load (L : Layout) (c : RKCfgFile) (hsized : c.sized L)
    (hmagic : magicOk L c.m_header = true)
    (hitem : L.itemSizeF.get c.m_header = L.itemSize)
    (hcount : L.lengthF.get c.m_header = c.m_items.length)
    (hbegin : L.beginF.get c.m_header = L.headerSize)
    (hfits : sizeFits L (L.itemSize * c.m_items.length)) :
    ∃ bytes, c.saveBinary true = .ok bytes ∧
      RKCfgFile.fromFile L (some { content := bytes, openable := true }) = some (.ok c) := by
  refine ⟨c.m_header ++ c.m_items.flatten, rfl, ?_⟩
  obtain ⟨hh, hitems⟩ := hsized
  have hflat := length_flatten_sized c.m_items L.itemSize hitems
  have htake : (c.m_header ++ c.m_items.flatten).take L.headerSize = c.m_header := by
    rw [← hh, List.take_left]
  have hload := loadItems_saved L c.m_header c.m_items []
    { m_header := c.m_header, m_items := [] } hh hbegin hitem (by simp) hitems rfl
  simp only [List.nil_append, List.length_nil] at hload
  have hlegal : legalSize L c.m_header = some (L.headerSize + L.itemSize * c.m_items.length) := by
    have := legalSize_of_fits L c.m_header (by rw [hitem, hcount]; exact hfits)
    rw [hitem, hcount] at this
    exact this
  rw [fromFile_of_legalSize L { content := c.m_header ++ c.m_items.flatten, openable := true }
    (L.headerSize + L.itemSize * c.m_items.length) rfl
    (by simp only [List.length_append, hh]; omega)
    (by simp only [htake]; exact hmagic) (by simp only [htake]; exact hitem)
    (by simp only [htake]; exact hlegal)]
  simp only [htake, hcount, hload, List.length_append, hflat, hh]
  simp [Nat.mul_comm]

/-- C1, witness: the two-item sample configuration survives save and load. -/
theorem C1_save_then_load_witness :
    ∃ bytes, sampleConfig.saveBinary true = .ok bytes ∧
      RKCfgFile.fromFile sampleLayout (some { content := bytes, openable := true })
        = some (.ok sampleConfig) :=
  C1_save_then_load sampleLayout sampleConfig (by decide) (by decide) (by decide) (by decide)
    (by decide) (by decide)

set_option maxRecDepth 100000 in
/-- C1, counterexample, in two parts.  First, `shiftedConfig` is what the
loader returns on `shiftedFile`; it satisfies the three validity conditions
(magic tag, item-record-size, count equal to the list length), yet after save
and load its item list is not the one that was saved, because the loader reads
the items from the offset `begin` = 0 of the header.  Second, on the wide
layout `wrapConfig` satisfies the three conditions and its `begin` is the
header size, yet the file that `save` writes for it, of `16 + 88 * 2 ^ 29`
bytes, is refused with `AbnormalFileSize`: the product of the size test wraps
to 0 and `legal_size` is 16. -/
theorem C1_save_then_load_counterexample :
    (RKCfgFile.fromFile sampleLayout (some { content := shiftedFile, openable := true })
        = some (.ok shiftedConfig) ∧
      shiftedConfig.sized sampleLayout ∧
      magicOk sampleLayout shiftedConfig.m_header = true ∧
      sampleLayout.itemSizeF.get shiftedConfig.m_header = sampleLayout.itemSize ∧
      sampleLayout.lengthF.get shiftedConfig.m_header = shiftedConfig.m_items.length ∧
      ∃ bytes loaded, shiftedConfig.saveBinary true = .ok bytes ∧
        RKCfgFile.fromFile sampleLayout (some { content := bytes, openable := true })
          = some (.ok loaded) ∧
        loaded.m_items ≠ shiftedConfig.m_items) ∧
    (wrapConfig.sized wideLayout ∧
      magicOk wideLayout wrapConfig.m_header = true ∧
      wideLayout.itemSizeF.get wrapConfig.m_header = wideLayout.itemSize ∧
      wideLayout.lengthF.get wrapConfig.m_header = wrapConfig.m_items.length ∧
      wideLayout.beginF.get wrapConfig.m_header = wideLayout.headerSize ∧
      ∃ bytes, wrapConfig.saveBinary true = .ok bytes ∧
        bytes.length = 16 + 88 * 2 ^ 29 ∧
        RKCfgFile.fromFile wideLayout (some { content := bytes, openable := true })
          = some (.error .AbnormalFileSize)) := by
  have hlen := length_saved_wrapConfig
  have htake : (wrapFile ++ wrapConfig.m_items.flatten).take wideLayout.headerSize = wrapFile :=
    List.take_left wrapFile _
  refine ⟨⟨by rfl, by decide, by decide, by decide, by decide, _, _, rfl, rfl, by decide⟩,
    ⟨rfl, wrapConfig_items_sized⟩, by decide, by decide, ?_, by decide, _, rfl, hlen, ?_⟩
  · have hn : wrapConfig.m_items.length = 2 ^ 29 := List.length_replicate _ _
    rw [hn]
    decide
  · show RKCfgFile.fromFile wideLayout
      (some { content := wrapFile ++ wrapConfig.m_items.flatten, openable := true }) = _
    rw [fromFile_of_legalSize wideLayout
      { content := wrapFile ++ wrapConfig.m_items.flatten, openable := true } 16 rfl
      (by simp only [hlen]; decide) (by simp only [htake]; decide)
      (by simp only [htake]; decide) (by simp only [htake]; decide)]
    rw [if_pos (by simp only [hlen]; decide)]

/-- C2 (as amended): for every existing, openable file of at least header size
that carries the magic tag `CFG` and the compiled item-record-size, and whose
item-record-size times count the size test computes without overflow, if the
file size is not exactly the compiled header size plus item-record-size times
the count member, `fromFile` rejects it with `AbnormalFileSize`. -/
theorem C2_abnormal_size (L : Layout) (f : DiskFile UInt8) (hopen : f.openable = true)
    (hsize : L.headerSize ≤ f.content.length)
    (hmagic : magicOk L (f.content.take L.headerSize) = true)
    (hitem : L.itemSizeF.get (f.content.take L.headerSize) = L.itemSize)
    (hfits : sizeFits L (L.itemSize * L.lengthF.get (f.content.take L.headerSize)))
    (hne : f.content.length
      ≠ L.headerSize + L.itemSize * L.lengthF.get (f.content.take L.headerSize)) :
    RKCfgFile.fromFile L (some f) = some (.error .AbnormalFileSize) := by
  have hlegal := legalSize_of_fits L (f.content.take L.headerSize) (by rw [hitem]; exact hfits)
  rw [hitem] at hlegal
  rw [fromFile_of_legalSize L f _ hopen hsize hmagic hitem hlegal, if_pos hne]

/-- C2, witness: a header that announces one item, with no item record behind it. -/
theorem C2_abnormal_size_witness :
    RKCfgFile.fromFile sampleLayout (some { content := shiftedHeader, openable := true })
      = some (.error .AbnormalFileSize) :=
  C2_abnormal_size sampleLayout { content := shiftedHeader, openable := true } rfl
    (by decide) (by decide) (by decide) (by decide) (by decide)

/-- C2, counterexample, in two parts.  First, `farBeginFile` has header size,
the magic tag and the compiled item-record-size; its size 12 differs from
header-length member plus item size times count (40 + 88 * 0), yet `fromFile`
accepts it.  Second, on the wide layout `wrapFile` has header size, the magic
tag and the compiled item-record-size; its size 16 differs from header-length
member plus item size times count (16 + 88 * 2 ^ 29, the header-length member
being the compiled header size), yet `fromFile` accepts it: the product of the
size test wraps to 0. -/
theorem C2_abnormal_size_counterexample :
    (sampleLayout.headerSize ≤ farBeginFile.length ∧
      magicOk sampleLayout (farBeginFile.take sampleLayout.headerSize) = true ∧
      sampleLayout.itemSizeF.get (farBeginFile.take sampleLayout.headerSize)
        = sampleLayout.itemSize ∧
      farBeginFile.length
        ≠ sampleLayout.beginF.get (farBeginFile.take sampleLayout.headerSize)
          + sampleLayout.itemSize
            * sampleLayout.lengthF.get (farBeginFile.take sampleLayout.headerSize) ∧
      RKCfgFile.fromFile sampleLayout (some { content := farBeginFile, openable := true })
        = some (.ok { m_header := farBeginFile, m_items := [] })) ∧
    (wideLayout.headerSize ≤ wrapFile.length ∧
      magicOk wideLayout (wrapFile.take wideLayout.headerSize) = true ∧
      wideLayout.itemSizeF.get (wrapFile.take wideLayout.headerSize) = wideLayout.itemSize ∧
      wideLayout.beginF.get (wrapFile.take wideLayout.headerSize) = wideLayout.headerSize ∧
      wrapFile.length
        ≠ wideLayout.beginF.get (wrapFile.take wideLayout.headerSize)
          + wideLayout.itemSize * wideLayout.lengthF.get (wrapFile.take wideLayout.headerSize) ∧
      RKCfgFile.fromFile wideLayout (some { content := wrapFile, openable := true })
        = some (.ok wrapConfig)) := by
  refine ⟨⟨by decide, by decide, by decide, by decide, by rfl⟩,
    by decide, by decide, by decide, by decide, by decide, fromFile_wrapFile⟩

/-- C3, the part that holds: for every existing, openable file, `fromFile`
decides in this order: a size below the header size gives `IsNotRKCfgFile`;
otherwise a magic tag other than `CFG` gives `IsNotRKCfgFile`; otherwise an
item-record-size member other than the compiled item size gives
`UnsupportedItemSize`; otherwise, when item size times count is computed
without overflow, a size other than header size plus item size times count
gives `AbnormalFileSize`, and the load succeeds on the remaining files with the
header of the file and exactly as many items as the count member says. -/
theorem fromFile_checks_in_order (L : Layout) (f : DiskFile UInt8)
    (hopen : f.openable = true) :
    (f.content.length < L.headerSize →
      RKCfgFile.fromFile L (some f) = some (.error .IsNotRKCfgFile)) ∧
    (L.headerSize ≤ f.content.length →
      magicOk L (f.content.take L.headerSize) = false →
      RKCfgFile.fromFile L (some f) = some (.error .IsNotRKCfgFile)) ∧
    (L.headerSize ≤ f.content.length →
      magicOk L (f.content.take L.headerSize) = true →
      L.itemSizeF.get (f.content.take L.headerSize) ≠ L.itemSize →
      RKCfgFile.fromFile L (some f) = some (.error .UnsupportedItemSize)) ∧
    (L.headerSize ≤ f.content.length →
      magicOk L (f.content.take L.headerSize) = true →
      L.itemSizeF.get (f.content.take L.headerSize) = L.itemSize →
      sizeFits L (L.itemSize * L.lengthF.get (f.content.take L.headerSize)) →
      f.content.length
        ≠ L.headerSize + L.itemSize * L.lengthF.get (f.content.take L.headerSize) →
      RKCfgFile.fromFile L (some f) = some (.error .AbnormalFileSize)) ∧
    (L.headerSize ≤ f.content.length →
      magicOk L (f.content.take L.headerSize) = true →
      L.itemSizeF.get (f.content.take L.headerSize) = L.itemSize →
      sizeFits L (L.itemSize * L.lengthF.get (f.content.take L.headerSize)) →
      f.content.length
        = L.headerSize + L.itemSize * L.lengthF.get (f.content.take L.headerSize) →
      ∃ c, RKCfgFile.fromFile L (some f) = some (.ok c) ∧
        c.m_header = f.content.take L.headerSize ∧
        c.m_items.length = L.lengthF.get (f.content.take L.headerSize) ∧
        L.lengthF.get c.m_header = c.m_items.length) := by
  refine ⟨?_, ?_, ?_, ?_, ?_⟩
  · intro h
    simp [RKCfgFile.fromFile, h]
  · intro h hm
    simp [RKCfgFile.fromFile, RKCfgFile.empty, Nat.not_lt.mpr h, hopen, hm]
  · intro h hm hi
    simp [RKCfgFile.fromFile, RKCfgFile.empty, Nat.not_lt.mpr h, hopen, hm, hi]
  · intro h hm hi hfits hne
    have hlegal := legalSize_of_fits L (f.content.take L.headerSize) (by rw [hi]; exact hfits)
    rw [hi] at hlegal
    rw [fromFile_of_legalSize L f _ hopen h hm hi hlegal, if_pos hne]
  · intro h hm hi hfits he
    have hlegal := legalSize_of_fits L (f.content.take L.headerSize) (by rw [hi]; exact hfits)
    rw [hi] at hlegal
    refine ⟨loadItems L f.content (L.lengthF.get (f.content.take L.headerSize)) 0 false
      { m_header := f.content.take L.headerSize, m_items := [] }, ?_, ?_, ?_, ?_⟩
    · rw [fromFile_of_legalSize L f _ hopen h hm hi hlegal, if_neg (by simpa using he)]
    · rw [loadItems_header]
    · rw [loadItems_length]; simp
    · rw [loadItems_header, loadItems_length]; simp

/-- The checks on `shiftedFile`, which passes them all. -/
theorem fromFile_checks_in_order_sample :
    ∃ c, RKCfgFile.fromFile sampleLayout (some { content := shiftedFile, openable := true })
        = some (.ok c) ∧
      c.m_header = shiftedFile.take sampleLayout.headerSize ∧
      c.m_items.length = sampleLayout.lengthF.get (shiftedFile.take sampleLayout.headerSize) ∧
      sampleLayout.lengthF.get c.m_header = c.m_items.length :=
  (fromFile_checks_in_order sampleLayout { content := shiftedFile, openable := true }
    rfl).2.2.2.2 (by decide) (by decide) (by decide) (by decide) (by decide)

theorem Field.get_set (f : Field) (bs : List UInt8) (v : Nat)
    (h : inside f.off f.width bs.length) : f.get (f.set bs v) = v % 256 ^ f.width := by
  unfold Field.get Field.set
  have hw := length_leBytes f.width v
  have := readBytes_writeBytes_same bs (leBytes f.width v) f.off (by rw [hw]; exact h)
  rw [hw] at this
  rw [this, leVal_leBytes]

theorem Field.length_set (f : Field) (bs : List UInt8) (v : Nat)
    (h : inside f.off f.width bs.length) : (f.set bs v).length = bs.length := by
  unfold Field.set
  exact length_writeBytes bs _ f.off (by rw [length_leBytes]; exact h)

theorem Field.get_set_apart (f g : Field) (bs : List UInt8) (v : Nat)
    (h : inside f.off f.width bs.length) (hd : apart f.off f.width g.off g.width) :
    g.get (f.set bs v) = g.get bs := by
  unfold Field.get Field.set
  rw [readBytes_writeBytes_apart bs _ f.off g.off g.width
    (by rw [length_leBytes]; exact h) (by rw [length_leBytes]; exact hd)]

theorem Field.get_lt (f : Field) (bs : List UInt8) : f.get bs < 256 ^ f.width := by
  unfold Field.get
  have h1 := leVal_lt (readBytes bs f.off f.width)
  have h2 : (readBytes bs f.off f.width).length ≤ f.width := by
    simp [readBytes, List.length_take]
  exact Nat.lt_of_lt_of_le h1 (Nat.pow_le_pow_right (by decide) h2)

theorem leVal_replicate_zero (n : Nat) : leVal (List.replicate n 0) = 0 := by
  induction n with
  | zero => rfl
  | succ n ih => simp [List.replicate_succ, leVal, ih]

theorem succ_mod_of_mod (m len r : Nat) (hr : r = len % m) : (r + 1) % m = (len + 1) % m := by
  subst hr; simp [Nat.add_mod]

theorem pred_mod_of_mod (m len r : Nat) (hm : 0 < m) (hlen : 0 < len) (hr : r = len % m) :
    (if r = 0 then m - 1 else r - 1) % m = (len - 1) % m := by
  subst hr
  have hdiv := Nat.div_add_mod len m
  have hlt := Nat.mod_lt len hm
  by_cases h0 : len % m = 0
  · rw [if_pos h0]
    have hq : 0 < len / m := by
      rcases Nat.eq_zero_or_pos (len / m) with h | h
      · rw [h, h0] at hdiv; omega
      · exact h
    have e : len - 1 = m - 1 + m * (len / m - 1) := by
      have : m * (len / m) = m * (len / m - 1) + m := by
        conv_lhs => rw [show len / m = (len / m - 1) + 1 by omega]
        rw [Nat.mul_add, Nat.mul_one]
      omega
    rw [e, Nat.add_mul_mod_self_left]
  · rw [if_neg h0]
    have e : len - 1 = (len % m - 1) + m * (len / m) := by omega
    rw [e, Nat.add_mul_mod_self_left]

theorem pow256_pos (w : Nat) : 0 < 256 ^ w := by positivity

theorem add_one_mod_congr (a b m : Nat) (h : a % m = b % m) : (a + 1) % m = (b + 1) % m := by
  rw [Nat.add_mod, h, ← Nat.add_mod]

theorem length_incLength (L : Layout) (h : List UInt8)
    (hin : inside L.lengthF.off L.lengthF.width h.length) : (incLength L h).length = h.length :=
  Field.length_set _ _ _ hin

theorem length_decLength (L : Layout) (h : List UInt8)
    (hin : inside L.lengthF.off L.lengthF.width h.length) : (decLength L h).length = h.length :=
  Field.length_set _ _ _ hin

theorem get_incLength (L : Layout) (h : List UInt8)
    (hin : inside L.lengthF.off L.lengthF.width h.length) :
    L.lengthF.get (incLength L h) = (L.lengthF.get h + 1) % 256 ^ L.lengthF.width :=
  Field.get_set _ _ _ hin

theorem get_decLength (L : Layout) (h : List UInt8)
    (hin : inside L.lengthF.off L.lengthF.width h.length) :
    L.lengthF.get (decLength L h)
      = (if L.lengthF.get h = 0 then 256 ^ L.lengthF.width - 1 else L.lengthF.get h - 1)
        % 256 ^ L.lengthF.width :=
  Field.get_set _ _ _ hin

/-- Undoing a decrement: the count before it, from the count after it. -/
theorem get_decLength_succ (L : Layout) (h : List UInt8)
    (hin : inside L.lengthF.off L.lengthF.width h.length) :
    (L.lengthF.get (decLength L h) + 1) % 256 ^ L.lengthF.width = L.lengthF.get h := by
  have hlt := Field.get_lt L.lengthF h
  have hpos := pow256_pos L.lengthF.width
  rw [get_decLength L h hin]
  by_cases h0 : L.lengthF.get h = 0
  · have e : (256 ^ L.lengthF.width - 1) % 256 ^ L.lengthF.width = 256 ^ L.lengthF.width - 1 :=
      Nat.mod_eq_of_lt (by omega)
    have : 256 ^ L.lengthF.width - 1 + 1 = 256 ^ L.lengthF.width := by omega
    rw [if_pos h0, h0, e, this, Nat.mod_self]
  · have e : (L.lengthF.get h - 1) % 256 ^ L.lengthF.width = L.lengthF.get h - 1 :=
      Nat.mod_eq_of_lt (by omega)
    have : L.lengthF.get h - 1 + 1 = L.lengthF.get h := by omega
    rw [if_neg h0, e, this, Nat.mod_eq_of_lt hlt]

theorem length_iterate_decLength (L : Layout) (k : Nat) (h : List UInt8)
    (hin : inside L.lengthF.off L.lengthF.width h.length) :
    ((decLength L)^[k] h).length = h.length := by
  induction k generalizing h with
  | zero => rfl
  | succ k ih =>
    rw [Function.iterate_succ_apply, ih (decLength L h) (by rw [length_decLength L h hin]; exact hin),
      length_decLength L h hin]

theorem get_iterate_decLength (L : Layout) (k : Nat) (h : List UInt8)
    (hin : inside L.lengthF.off L.lengthF.width h.length) :
    (L.lengthF.get ((decLength L)^[k] h) + k) % 256 ^ L.lengthF.width = L.lengthF.get h := by
  induction k generalizing h with
  | zero => exact Nat.mod_eq_of_lt (Field.get_lt _ _)
  | succ k ih =>
    have hin' : inside L.lengthF.off L.lengthF.width (decLength L h).length := by
      rw [length_decLength L h hin]; exact hin
    have e : (L.lengthF.get ((decLength L)^[k] (decLength L h)) + k) % 256 ^ L.lengthF.width
        = L.lengthF.get (decLength L h) % 256 ^ L.lengthF.width := by
      rw [ih (decLength L h) hin', Nat.mod_eq_of_lt (Field.get_lt _ _)]
    rw [Function.iterate_succ_apply, ← Nat.add_assoc, add_one_mod_congr _ _ _ e]
    exact get_decLength_succ L h hin

theorem length_keptFrom_le (filters : List ItemFilter) (idx : Nat) (items : List (List UInt8)) :
    (keptFrom filters idx items).length ≤ items.length := by
  induction items generalizing idx with
  | nil => simp [keptFrom]
  | cons x xs ih =>
    unfold keptFrom
    split
    · exact Nat.le_succ_of_le (ih idx)
    · simp only [List.length_cons]; exact Nat.succ_le_succ (ih (idx + 1))

/-- The loop of `removeItem(filters)`, entered at position `pre.length` with
enough fuel for the items still to be met, keeps `keptFrom` of them, decrements
the count once for every other one, and stops at the end of the list. -/
theorem removeItemLoop_eq (L : Layout) (filters : List ItemFilter) (rest : List (List UInt8)) :
    ∀ (fuel : Nat) (pre : List (List UInt8)) (h : List UInt8), rest.length ≤ fuel →
      removeItemLoop L filters fuel { m_header := h, m_items := pre ++ rest } pre.length
        = ({ m_header :=
              (decLength L)^[rest.length - (keptFrom filters pre.length rest).length] h
             m_items := pre ++ keptFrom filters pre.length rest },
            (pre ++ keptFrom filters pre.length rest).length) := by
  induction rest with
  | nil =>
    intro fuel pre h _
    cases fuel with
    | zero => simp [removeItemLoop, keptFrom]
    | succ fuel => simp [removeItemLoop, keptFrom]
  | cons x xs ih =>
    intro fuel pre h hfuel
    cases fuel with
    | zero => simp at hfuel
    | succ fuel =>
      have hfuel' : xs.length ≤ fuel := by simpa using hfuel
      have hget : (pre ++ x :: xs).get? pre.length = some x := by
        rw [List.get?_eq_getElem?, List.getElem?_append_right (Nat.le_refl _), Nat.sub_self]
        simp
      have hle := length_keptFrom_le filters pre.length xs
      rw [removeItemLoop]
      simp only [hget]
      by_cases hm : filters.any (fun filter => filter pre.length x) = true
      · rw [if_pos hm]
        have herase : (pre ++ x :: xs).take pre.length ++ (pre ++ x :: xs).drop (pre.length + 1)
            = pre ++ xs := by simp
        rw [herase, ih fuel pre (decLength L h) hfuel']
        have hk : keptFrom filters pre.length (x :: xs) = keptFrom filters pre.length xs := by
          rw [keptFrom, if_pos hm]
        have hn : (x :: xs).length - (keptFrom filters pre.length xs).length
            = (xs.length - (keptFrom filters pre.length xs).length) + 1 := by
          simp only [List.length_cons]; omega
        rw [hk, hn, Function.iterate_succ_apply]
      · rw [if_neg hm]
        have hsplit : pre ++ x :: xs = (pre ++ [x]) ++ xs := by simp
        have hk : keptFrom filters pre.length (x :: xs)
            = x :: keptFrom filters (pre.length + 1) xs := by
          rw [keptFrom, if_neg hm]
        have := ih fuel (pre ++ [x]) h hfuel'
        simp only [List.length_append, List.length_singleton, List.append_assoc,
          List.singleton_append] at this
        rw [this, hk]
        simp

theorem removeItemIf_eq (L : Layout) (c : RKCfgFile) (filters : List ItemFilter) :
    c.removeItemIf L filters
      = { m_header :=
            (decLength L)^[c.m_items.length - (keptFrom filters 0 c.m_items).length] c.m_header
          m_items := keptFrom filters 0 c.m_items } := by
  have := removeItemLoop_eq L filters c.m_items c.m_items.length [] c.m_header (Nat.le_refl _)
  simp only [List.nil_append, List.length_nil] at this
  unfold RKCfgFile.removeItemIf
  rw [this]

theorem keptFrom_eq_filter (filters : List ItemFilter)
    (hpure : ∀ filter ∈ filters, ∀ (i j : Nat) (item : List UInt8), filter i item = filter j item)
    (idx : Nat) (items : List (List UInt8)) :
    keptFrom filters idx items
      = items.filter (fun item => !filters.any (fun filter => filter 0 item)) := by
  have hany : ∀ (i : Nat) (item : List UInt8),
      filters.any (fun filter => filter i item) = filters.any (fun filter => filter 0 item) := by
    intro i item
    rw [Bool.eq_iff_iff, List.any_eq_true, List.any_eq_true]
    constructor
    · rintro ⟨f, hf, hx⟩
      exact ⟨f, hf, (hpure f hf i 0 item) ▸ hx⟩
    · rintro ⟨f, hf, hx⟩
      exact ⟨f, hf, (hpure f hf 0 i item) ▸ hx⟩
  induction items generalizing idx with
  | nil => rfl
  | cons x xs ih =>
    rw [keptFrom, hany idx x]
    by_cases hm : filters.any (fun filter => filter 0 x) = true
    · rw [if_pos hm, ih, List.filter_cons_of_neg (by simp [hm])]
    · rw [if_neg hm, ih, List.filter_cons_of_pos (by simpa using hm)]

theorem length_defaultHeader (L : Layout) (hL : L.wf) : (defaultHeader L).length = L.headerSize := by
  obtain ⟨⟨hm, hb, hi, _⟩, _⟩ := hL
  have h1 : (writeBytes (List.replicate L.headerSize 0) L.magicOff magicCFG).length
      = L.headerSize := by
    rw [length_writeBytes _ _ _ (by simpa [magicCFG] using hm)]; simp
  have h2 := Field.length_set L.beginF _ L.headerSize (by rw [h1]; exact hb)
  unfold defaultHeader
  rw [Field.length_set L.itemSizeF _ L.itemSize (by rw [h2, h1]; exact hi), h2, h1]

theorem get_length_defaultHeader (L : Layout) (hL : L.wf) :
    L.lengthF.get (defaultHeader L) = 0 := by
  obtain ⟨⟨hm, hb, hi, _⟩, ⟨_, _, ml, _, bl, il⟩, _⟩ := hL
  have h1 : (writeBytes (List.replicate L.headerSize 0) L.magicOff magicCFG).length
      = L.headerSize := by
    rw [length_writeBytes _ _ _ (by simpa [magicCFG] using hm)]; simp
  have h2 := Field.length_set L.beginF _ L.headerSize (by rw [h1]; exact hb)
  unfold defaultHeader
  rw [Field.get_set_apart L.itemSizeF L.lengthF _ _ (by rw [h2, h1]; exact hi) il,
    Field.get_set_apart L.beginF L.lengthF _ _ (by rw [h1]; exact hb) bl]
  unfold Field.get
  rw [readBytes_writeBytes_apart _ _ _ _ _ (by simpa [magicCFG] using hm)
    (by simpa [magicCFG] using ml)]
  simp [readBytes, List.drop_replicate, List.take_replicate, leVal_replicate_zero]

theorem counted_empty (L : Layout) (hL : L.wf) : (RKCfgFile.empty L).counted L :=
  ⟨length_defaultHeader L hL, by simp [RKCfgFile.empty, get_length_defaultHeader L hL]⟩

theorem counted_grow (L : Layout) (hL : L.wf) (h : List UInt8) (n : Nat)
    (hc : h.length = L.headerSize ∧ L.lengthF.get h = n % 256 ^ L.lengthF.width) :
    (incLength L h).length = L.headerSize ∧
      L.lengthF.get (incLength L h) = (n + 1) % 256 ^ L.lengthF.width := by
  have hin : inside L.lengthF.off L.lengthF.width h.length := by rw [hc.1]; exact hL.1.2.2.2
  refine ⟨by rw [length_incLength L h hin]; exact hc.1, ?_⟩
  rw [get_incLength L h hin, hc.2]
  exact add_one_mod_congr _ _ _ (Nat.mod_mod _ _)

theorem counted_shrink (L : Layout) (hL : L.wf) (h : List UInt8) (n : Nat) (hn : 0 < n)
    (hc : h.length = L.headerSize ∧ L.lengthF.get h = n % 256 ^ L.lengthF.width) :
    (decLength L h).length = L.headerSize ∧
      L.lengthF.get (decLength L h) = (n - 1) % 256 ^ L.lengthF.width := by
  have hin : inside L.lengthF.off L.lengthF.width h.length := by rw [hc.1]; exact hL.1.2.2.2
  refine ⟨by rw [length_decLength L h hin]; exact hc.1, ?_⟩
  rw [get_decLength L h hin]
  exact pred_mod_of_mod _ n _ (pow256_pos _) hn hc.2

theorem counted_removeItemIf (L : Layout) (hL : L.wf) (c : RKCfgFile)
    (filters : List ItemFilter) (hc : c.counted L) : (c.removeItemIf L filters).counted L := by
  have hin : inside L.lengthF.off L.lengthF.width c.m_header.length := by
    rw [hc.1]; exact hL.1.2.2.2
  have hle := length_keptFrom_le filters 0 c.m_items
  rw [removeItemIf_eq]
  refine ⟨by rw [length_iterate_decLength L _ _ hin]; exact hc.1, ?_⟩
  have hk := get_iterate_decLength L
    (c.m_items.length - (keptFrom filters 0 c.m_items).length) c.m_header hin
  rw [hc.2] at hk
  have hsum : (keptFrom filters 0 c.m_items).length
      + (c.m_items.length - (keptFrom filters 0 c.m_items).length) = c.m_items.length := by omega
  have hmod : Nat.ModEq (256 ^ L.lengthF.width)
      (L.lengthF.get ((decLength L)^[c.m_items.length - (keptFrom filters 0 c.m_items).length]
        c.m_header)) (keptFrom filters 0 c.m_items).length := by
    apply Nat.ModEq.add_right_cancel' (c.m_items.length - (keptFrom filters 0 c.m_items).length)
    unfold Nat.ModEq
    rw [hsum, hk]
  unfold Nat.ModEq at hmod
  rw [Nat.mod_eq_of_lt (Field.get_lt _ _)] at hmod
  exact hmod

theorem counted_call (L : Layout) (hL : L.wf) (c c' : RKCfgFile) (call : Call)
    (hc : c.counted L) (hgrow : call.grows = true) (hrun : c.call L call = some c') :
    c'.counted L := by
  cases call with
  | addItem item inc =>
    simp only [Call.grows] at hgrow
    simp only [RKCfgFile.call, hgrow, Option.some.injEq] at hrun
    subst hrun
    have := counted_grow L hL c.m_header c.m_items.length hc
    simpa [RKCfgFile.counted, RKCfgFile.addItem] using this
  | addItemAt item index inc =>
    simp only [Call.grows] at hgrow
    simp only [RKCfgFile.call, RKCfgFile.addItemAt, hgrow] at hrun
    split at hrun
    · rename_i hidx
      simp only [Option.some.injEq] at hrun
      subst hrun
      have := counted_grow L hL c.m_header c.m_items.length hc
      have hlen : (List.take index c.m_items ++ item :: List.drop index c.m_items).length
          = c.m_items.length + 1 := by
        simp only [List.length_append, List.length_take, List.length_cons, List.length_drop]
        omega
      simpa [RKCfgFile.counted, hlen] using this
    · simp at hrun
  | removeItem index =>
    simp only [RKCfgFile.call, RKCfgFile.removeItem] at hrun
    split at hrun
    · rename_i hidx
      simp only [Option.some.injEq] at hrun
      subst hrun
      have := counted_shrink L hL c.m_header c.m_items.length (by omega) hc
      have hlen : (List.take index c.m_items ++ List.drop (index + 1) c.m_items).length
          = c.m_items.length - 1 := by
        simp only [List.length_append, List.length_take, List.length_drop]
        omega
      simpa [RKCfgFile.counted, hlen] using this
    · simp at hrun
  | removeItemIf filters =>
    simp only [RKCfgFile.call, Option.some.injEq] at hrun
    subst hrun
    exact counted_removeItemIf L hL c filters hc
  | updateItem index item =>
    simp only [RKCfgFile.call, RKCfgFile.updateItem] at hrun
    split at hrun
    · simp only [Option.some.injEq] at hrun
      subst hrun
      simpa [RKCfgFile.counted] using hc
    · simp at hrun

theorem counted_calls (L : Layout) (hL : L.wf) (calls : List Call) :
    ∀ (c c' : RKCfgFile), c.counted L → (∀ call ∈ calls, call.grows = true) →
      c.calls L calls = some c' → c'.counted L := by
  induction calls with
  | nil =>
    intro c c' hc _ hrun
    simp only [RKCfgFile.calls, Option.some.injEq] at hrun
    subst hrun
    exact hc
  | cons call rest ih =>
    intro c c' hc hgrow hrun
    simp only [RKCfgFile.calls] at hrun
    split at hrun
    · simp at hrun
    · rename_i c₁ h₁
      exact ih c₁ c' (counted_call L hL c c₁ call hc (hgrow call (List.mem_cons_self _ _)) h₁)
        (fun x hx => hgrow x (List.mem_cons_of_mem _ hx)) hrun

/-! ## The mutators: claims C4 and C5 -/

/-- C4 (as amended): starting from an empty configuration, in every sequence
of `addItem`, insert (`addItem` with an index), `removeItem` (by index or by
filters) and `updateItem` calls whose `auto_increase_length` argument is left
at `true`, immediately after each call that has returned (the first `k` calls,
their indices in range), the header count equals the length of the item list
as far as the count member can hold it: it is the length modulo the capacity
of the member, hence the length itself whenever the length is below that
capacity. -/
theorem C4_count_follows_length (L : Layout) (hL : L.wf) (calls : List Call)
    (hgrow : ∀ call ∈ calls, call.grows = true) (k : Nat) (c : RKCfgFile)
    (hrun : (RKCfgFile.empty L).calls L (calls.take k) = some c) :
    L.lengthF.get c.m_header = c.m_items.length % 256 ^ L.lengthF.width ∧
      (c.m_items.length < 256 ^ L.lengthF.width →
        L.lengthF.get c.m_header = c.m_items.length) := by
  have h := (counted_calls L hL (calls.take k) (RKCfgFile.empty L) c (counted_empty L hL)
    (fun call hc => hgrow call (List.mem_of_mem_take hc)) hrun).2
  exact ⟨h, fun hlt => by rw [h, Nat.mod_eq_of_lt hlt]⟩

set_option maxRecDepth 100000 in
/-- C4, witness: the count after the seven calls of `sampleCalls`, which use
every mutator. -/
theorem C4_count_follows_length_witness :
    sampleLayout.lengthF.get sampleCallsResult.m_header
        = sampleCallsResult.m_items.length % 256 ^ sampleLayout.lengthF.width ∧
      (sampleCallsResult.m_items.length < 256 ^ sampleLayout.lengthF.width →
        sampleLayout.lengthF.get sampleCallsResult.m_header
          = sampleCallsResult.m_items.length) :=
  C4_count_follows_length sampleLayout (by decide) sampleCalls (by decide) 7 sampleCallsResult
    (by rfl)

set_option maxRecDepth 100000 in
/-- C4, counterexample: one `addItem(item, false)` on the empty configuration
leaves one item in the list and the header count at 0. -/
theorem C4_suppressed_increment_counterexample :
    ∃ c, (RKCfgFile.empty sampleLayout).calls sampleLayout [.addItem itemA false] = some c ∧
      sampleLayout.lengthF.get c.m_header = 0 ∧ c.m_items.length = 1 ∧
      sampleLayout.lengthF.get c.m_header ≠ c.m_items.length := by
  refine ⟨{ m_header := defaultHeader sampleLayout, m_items := [itemA] }, by rfl, by decide,
    by decide, by decide⟩

/-- C5: for every configuration and every list of filters that depend only on
the item, `removeItem(filters)` leaves exactly the items on which no filter
answers true, in their original order, and takes the number of removed items
off the header count: the old count is the new count plus that number, modulo
the capacity of the count member, and the new count is the old count minus
that number whenever the old count is at least that number. -/
theorem C5_removeItem_filters (L : Layout) (hL : L.wf) (c : RKCfgFile)
    (hheader : c.m_header.length = L.headerSize) (filters : List ItemFilter)
    (hpure : ∀ filter ∈ filters, ∀ (i j : Nat) (item : List UInt8),
      filter i item = filter j item) :
    (c.removeItemIf L filters).m_items
        = c.m_items.filter (fun item => !filters.any (fun filter => filter 0 item)) ∧
      (L.lengthF.get (c.removeItemIf L filters).m_header
          + (c.m_items.length - (c.removeItemIf L filters).m_items.length))
        % 256 ^ L.lengthF.width = L.lengthF.get c.m_header ∧
      (c.m_items.length - (c.removeItemIf L filters).m_items.length ≤ L.lengthF.get c.m_header →
        L.lengthF.get (c.removeItemIf L filters).m_header
          = L.lengthF.get c.m_header
            - (c.m_items.length - (c.removeItemIf L filters).m_items.length)) := by
  have hin : inside L.lengthF.off L.lengthF.width c.m_header.length := by
    rw [hheader]; exact hL.1.2.2.2
  have hk := get_iterate_decLength L
    (c.m_items.length - (keptFrom filters 0 c.m_items).length) c.m_header hin
  rw [removeItemIf_eq]
  refine ⟨keptFrom_eq_filter filters hpure 0 c.m_items, hk, ?_⟩
  intro hle
  have hlt := Field.get_lt L.lengthF c.m_header
  have hlt' := Field.get_lt L.lengthF
    ((decLength L)^[c.m_items.length - (keptFrom filters 0 c.m_items).length] c.m_header)
  simp only at hle hk ⊢
  by_cases hsmall : L.lengthF.get
      ((decLength L)^[c.m_items.length - (keptFrom filters 0 c.m_items).length] c.m_header)
      + (c.m_items.length - (keptFrom filters 0 c.m_items).length) < 256 ^ L.lengthF.width
  · rw [Nat.mod_eq_of_lt hsmall] at hk
    omega
  · rw [Nat.mod_eq_sub_mod (Nat.le_of_not_lt hsmall), Nat.mod_eq_of_lt (by omega)] at hk
    omega

set_option maxRecDepth 100000 in
/-- C5, witness: the items A, B, C, D with a filter that matches B and D
become A, C, and the count goes from 4 to 2. -/
theorem C5_removeItem_filters_witness :
    (configABCD.removeItemIf sampleLayout [filterBD]).m_items = [itemA, itemC] ∧
      sampleLayout.lengthF.get configABCD.m_header = 4 ∧
      sampleLayout.lengthF.get (configABCD.removeItemIf sampleLayout [filterBD]).m_header
        = 2 := by
  have h := C5_removeItem_filters sampleLayout (by decide) configABCD (by decide) [filterBD]
    (by intro filter hf i j item; rw [List.mem_singleton.mp hf]; rfl)
  have h4 : sampleLayout.lengthF.get configABCD.m_header = 4 := by decide
  have hf : configABCD.m_items.filter
      (fun item => !([filterBD] : List ItemFilter).any (fun filter => filter 0 item))
      = [itemA, itemC] := by decide
  have hlen : configABCD.m_items.length = 4 := by decide
  refine ⟨h.1.trans hf, h4, ?_⟩
  have h3 := h.2.2
  rw [h.1, hf, hlen, h4] at h3
  exact h3 (by decide)

/-! ## Lemmas on wide-character buffers and on items -/

theorem bytesUnits_unitsBytes (units : List Nat) (h : ∀ u ∈ units, u < 65536) :
    bytesUnits (unitsBytes units) = units := by
  induction units with
  | nil => rfl
  | cons u us ih =>
    have hu : u < 65536 := h u (List.mem_cons_self _ _)
    have hus : ∀ v ∈ us, v < 65536 := fun v hv => h v (List.mem_cons_of_mem _ hv)
    have h2 : leBytes 2 u = [UInt8.ofNat (u % 256), UInt8.ofNat (u / 256 % 256)] := rfl
    have hv := leVal_leBytes 2 u
    rw [h2] at hv
    have hmod : u % 256 ^ 2 = u := Nat.mod_eq_of_lt (by simpa using hu)
    simp only [unitsBytes, List.flatMap_cons, h2, List.cons_append, List.nil_append, bytesUnits]
    rw [hv, hmod]
    congr 1
    exact ih hus

theorem length_unitsBytes (units : List Nat) : (unitsBytes units).length = 2 * units.length := by
  induction units with
  | nil => rfl
  | cons u us ih =>
    simp only [unitsBytes, List.flatMap_cons, List.length_append, length_leBytes,
      List.length_cons] at ih ⊢
    omega

theorem utf16Char_lt (c : Char) : ∀ u ∈ utf16Char c, u < 65536 := by
  intro u hu
  have hv : c.toNat < 1114112 := by
    have := c.valid
    unfold Char.toNat
    rcases this with h | ⟨_, h⟩
    · exact Nat.lt_trans h (by decide)
    · exact h
  unfold utf16Char at hu
  split at hu
  · rw [List.mem_singleton.mp hu]; assumption
  · simp only [List.mem_cons, List.mem_singleton, List.mem_nil_iff, or_false] at hu
    rcases hu with h | h <;> omega

theorem utf16_lt (text : List Char) : ∀ u ∈ utf16 text, u < 65536 := by
  intro u hu
  simp only [utf16, List.mem_flatMap] at hu
  obtain ⟨c, _, hc⟩ := hu
  exact utf16Char_lt c u hc

theorem wideBuffer_lt (text : List Char) (maxLen : Nat) :
    ∀ u ∈ wideBuffer text maxLen, u < 65536 := by
  intro u hu
  rcases List.mem_append.mp hu with h | h
  · exact utf16_lt text u h
  · rw [(List.mem_replicate.mp h).2]; decide

theorem length_wideBuffer (text : List Char) (maxLen : Nat) (h : (utf16 text).length < maxLen) :
    (wideBuffer text maxLen).length = maxLen := by
  simp [wideBuffer]; omega

theorem to_char16_fits (text : List Char) (maxLen : Nat) (h : (utf16 text).length < maxLen) :
    to_char16 text maxLen = some (wideBuffer text maxLen) := by
  unfold to_char16 wideBuffer
  rw [if_neg (by omega)]

theorem to_char16_overflow (text : List Char) (maxLen : Nat)
    (h : maxLen ≤ (utf16 text).length) : to_char16 text maxLen = none := by
  unfold to_char16
  rw [if_pos h]

theorem length_defaultItem (L : Layout) : (defaultItem L).length = L.itemSize := by
  simp [defaultItem]

theorem setName_fits (L : Layout) (hL : L.wf) (item : List UInt8)
    (hlen : item.length = L.itemSize) (text : List Char) (h : (utf16 text).length < L.maxName) :
    (setName L item text).2 = true ∧ (setName L item text).1.length = L.itemSize ∧
      itemName L (setName L item text).1 = wideBuffer text L.maxName := by
  have hin : L.nameOff + (unitsBytes (wideBuffer text L.maxName)).length ≤ item.length := by
    rw [length_unitsBytes, length_wideBuffer text L.maxName h, hlen]; exact hL.2.2.1.2.2.1
  have hread := readBytes_writeBytes_same item _ L.nameOff hin
  rw [length_unitsBytes, length_wideBuffer text L.maxName h] at hread
  unfold setName
  rw [to_char16_fits text L.maxName h]
  refine ⟨rfl, by rw [length_writeBytes _ _ _ hin]; exact hlen, ?_⟩
  unfold itemName
  rw [hread, bytesUnits_unitsBytes _ (wideBuffer_lt text L.maxName)]

theorem setName_overflow (L : Layout) (item : List UInt8) (text : List Char)
    (h : L.maxName ≤ (utf16 text).length) : (setName L item text).2 = false := by
  unfold setName
  rw [to_char16_overflow text L.maxName h]

theorem setPath_keeps (L : Layout) (hL : L.wf) (item : List UInt8)
    (hlen : item.length = L.itemSize) (text : List Char) :
    (setPath L item text).1.length = L.itemSize ∧
      itemName L (setPath L item text).1 = itemName L item := by
  unfold setPath
  cases hto : to_char16 text L.maxPath with
  | none => exact ⟨hlen, rfl⟩
  | some buf =>
    have hbuf : buf.length = L.maxPath := by
      unfold to_char16 at hto
      split at hto
      · simp at hto
      · rename_i hfit
        simp only [Option.some.injEq] at hto
        rw [← hto]; simp; omega
    have hin : L.pathOff + (unitsBytes buf).length ≤ item.length := by
      rw [length_unitsBytes, hbuf, hlen]; exact hL.2.2.1.2.2.2
    refine ⟨by simp only; rw [length_writeBytes _ _ _ hin]; exact hlen, ?_⟩
    simp only [itemName]
    rw [readBytes_writeBytes_apart _ _ _ _ _ hin
      (by rw [length_unitsBytes, hbuf]; exact hL.2.2.2.2.2.2.2.2.symm)]

theorem describes_finish (L : Layout) (hL : L.wf) (hsel : 0 < L.selectedF.width)
    (item : List UInt8) (hlen : item.length = L.itemSize) (name : List Char) (address : Nat)
    (ha : address < 256 ^ L.addressF.width)
    (hname : itemName L item = wideBuffer name L.maxName) :
    (L.selectedF.set (L.addressF.set item address) 1).length = L.itemSize ∧
      describes L (L.selectedF.set (L.addressF.set item address) 1) name address := by
  obtain ⟨_, _, ⟨hs, hadr, _, _⟩, ⟨sa, sn, _, an, _, _⟩⟩ := hL
  have hina : inside L.addressF.off L.addressF.width item.length := by rw [hlen]; exact hadr
  have hla := Field.length_set L.addressF item address hina
  have hins : inside L.selectedF.off L.selectedF.width (L.addressF.set item address).length := by
    rw [hla, hlen]; exact hs
  have hone : 1 % 256 ^ L.selectedF.width = 1 := by
    have : 256 ^ 1 ≤ 256 ^ L.selectedF.width := Nat.pow_le_pow_right (by decide) hsel
    exact Nat.mod_eq_of_lt (by omega)
  refine ⟨by rw [Field.length_set _ _ _ hins, hla, hlen], ?_, ?_, ?_⟩
  · rw [← hname]
    unfold itemName Field.set
    rw [readBytes_writeBytes_apart _ _ _ _ _ (by rw [length_leBytes]; exact hins)
        (by rw [length_leBytes]; exact sn),
      readBytes_writeBytes_apart _ _ _ _ _ (by rw [length_leBytes]; exact hina)
        (by rw [length_leBytes]; exact an)]
  · rw [Field.get_set_apart L.selectedF L.addressF _ _ hins sa, Field.get_set _ _ _ hina,
      Nat.mod_eq_of_lt ha]
  · rw [Field.get_set _ _ _ hins, hone]

theorem partItem_fits (L : Layout) (hL : L.wf) (hsel : 0 < L.selectedF.width)
    (auto_scan_args : AutoScanArgument) (dir : BaseDir) (part : Partition)
    (ha : part.address < 256 ^ L.addressF.width)
    (hfit : (utf16 part.name).length < L.maxName) :
    ∃ item, partItem L auto_scan_args dir part = .ok item ∧ item.length = L.itemSize ∧
      describes L item part.name part.address := by
  obtain ⟨h1, h2, h3⟩ := setName_fits L hL (defaultItem L) (length_defaultItem L) part.name hfit
  unfold partItem
  rw [h1]
  simp only [Bool.not_true, Bool.false_eq_true, if_false]
  refine ⟨_, rfl, ?_⟩
  split
  · have hp := setPath_keeps L hL _ h2
      (auto_scan_args.pfx ++ potentialImagePath dir part.name)
    exact describes_finish L hL hsel _ hp.1 part.name part.address ha (hp.2.trans h3)
  · exact describes_finish L hL hsel _ h2 part.name part.address ha h3

theorem partItem_overflow (L : Layout) (auto_scan_args : AutoScanArgument) (dir : BaseDir)
    (part : Partition) (h : L.maxName ≤ (utf16 part.name).length) :
    partItem L auto_scan_args dir part = .error .IllegalMtdPartFormat := by
  unfold partItem
  rw [setName_overflow L _ _ h]
  rfl

theorem partItem_error (L : Layout) (auto_scan_args : AutoScanArgument) (dir : BaseDir)
    (part : Partition) (e : RKConvertParamErrorCode)
    (h : partItem L auto_scan_args dir part = .error e) : e = .IllegalMtdPartFormat := by
  unfold partItem at h
  split at h
  · injection h with h; exact h.symm
  · cases h

theorem loaderItem_describes (L : Layout) (hL : L.wf) (hsel : 0 < L.selectedF.width)
    (hmax : 9 < L.maxName) (auto_scan_args : AutoScanArgument) (dir : BaseDir) :
    (loaderItem L auto_scan_args dir).length = L.itemSize ∧
      describes L (loaderItem L auto_scan_args dir) "Loader".toList 0 := by
  have hfit : (utf16 "Loader".toList).length < L.maxName :=
    Nat.lt_trans (by decide) hmax
  obtain ⟨_, h2, h3⟩ := setName_fits L hL (defaultItem L) (length_defaultItem L) _ hfit
  unfold loaderItem
  simp only
  split
  · have hp := setPath_keeps L hL _ h2 (auto_scan_args.pfx ++ "MiniLoaderAll.bin".toList)
    exact describes_finish L hL hsel _ hp.1 _ 0 (pow256_pos _) (hp.2.trans h3)
  · exact describes_finish L hL hsel _ h2 _ 0 (pow256_pos _) h3

theorem parameterItem_describes (L : Layout) (hL : L.wf) (hsel : 0 < L.selectedF.width)
    (hmax : 9 < L.maxName) (auto_scan_args : AutoScanArgument) (path : List Char) :
    (parameterItem L auto_scan_args path).length = L.itemSize ∧
      describes L (parameterItem L auto_scan_args path) "parameter".toList 0 := by
  have hfit : (utf16 "parameter".toList).length < L.maxName := by
    have : (utf16 "parameter".toList).length = 9 := by decide
    omega
  obtain ⟨_, h2, h3⟩ := setName_fits L hL (defaultItem L) (length_defaultItem L) _ hfit
  unfold parameterItem
  simp only
  split
  · have hp := setPath_keeps L hL _ h2 (auto_scan_args.pfx ++ path)
    exact describes_finish L hL hsel _ hp.1 _ 0 (pow256_pos _) (hp.2.trans h3)
  · exact describes_finish L hL hsel _ h2 _ 0 (pow256_pos _) h3

/-! ## Lemmas on the item loop of `fromParameter` -/

theorem length_iterate_incLength (L : Layout) (k : Nat) (h : List UInt8)
    (hin : inside L.lengthF.off L.lengthF.width h.length) :
    ((incLength L)^[k] h).length = h.length := by
  induction k generalizing h with
  | zero => rfl
  | succ k ih =>
    rw [Function.iterate_succ_apply, ih (incLength L h) (by rw [length_incLength L h hin]; exact hin),
      length_incLength L h hin]

theorem get_iterate_incLength (L : Layout) (k : Nat) (h : List UInt8)
    (hin : inside L.lengthF.off L.lengthF.width h.length) :
    L.lengthF.get ((incLength L)^[k] h) = (L.lengthF.get h + k) % 256 ^ L.lengthF.width := by
  induction k generalizing h with
  | zero => exact (Nat.mod_eq_of_lt (Field.get_lt _ _)).symm
  | succ k ih =>
    have hin' : inside L.lengthF.off L.lengthF.width (incLength L h).length := by
      rw [length_incLength L h hin]; exact hin
    rw [Function.iterate_succ_apply, ih (incLength L h) hin', get_incLength L h hin,
      Nat.add_mod, Nat.mod_mod, ← Nat.add_mod]
    congr 1
    omega

theorem addParts_fits (L : Layout) (hL : L.wf) (hsel : 0 < L.selectedF.width)
    (auto_scan_args : AutoScanArgument) (dir : BaseDir) (parts : List Partition)
    (hadr : ∀ p ∈ parts, p.address < 256 ^ L.addressF.width)
    (hfit : ∀ p ∈ parts, (utf16 p.name).length < L.maxName) :
    ∀ r : RKCfgFile, ∃ items,
      addParts L auto_scan_args dir parts r
          = .ok { m_header := (incLength L)^[parts.length] r.m_header
                  m_items := r.m_items ++ items } ∧
        List.Forall₂ (fun item p => describes L item p.name p.address) items parts := by
  induction parts with
  | nil => intro r; exact ⟨[], by simp [addParts], List.Forall₂.nil⟩
  | cons p ps ih =>
    intro r
    obtain ⟨item, hitem, _, hd⟩ := partItem_fits L hL hsel auto_scan_args dir p
      (hadr p (List.mem_cons_self _ _)) (hfit p (List.mem_cons_self _ _))
    obtain ⟨items, hrest, hall⟩ := ih (fun q hq => hadr q (List.mem_cons_of_mem _ hq))
      (fun q hq => hfit q (List.mem_cons_of_mem _ hq)) (r.addItem L item true)
    refine ⟨item :: items, ?_, List.Forall₂.cons hd hall⟩
    rw [addParts, hitem]
    simp only [hrest]
    simp [RKCfgFile.addItem, Function.iterate_succ_apply]

theorem addParts_overflow (L : Layout) (auto_scan_args : AutoScanArgument) (dir : BaseDir)
    (parts : List Partition) (h : ∃ p ∈ parts, L.maxName ≤ (utf16 p.name).length) :
    ∀ r : RKCfgFile,
      addParts L auto_scan_args dir parts r = .error .IllegalMtdPartFormat := by
  induction parts with
  | nil => obtain ⟨p, hp, _⟩ := h; cases hp
  | cons q qs ih =>
    intro r
    rw [addParts]
    cases hq : partItem L auto_scan_args dir q with
    | error e => rw [partItem_error L auto_scan_args dir q e hq]
    | ok item =>
      simp only
      obtain ⟨p, hp, hover⟩ := h
      rcases List.mem_cons.mp hp with heq | hmem
      · rw [partItem_overflow L auto_scan_args dir q (heq ▸ hover)] at hq
        cases hq
      · exact ih ⟨p, hmem, hover⟩ _

/-! ## Lemmas on the token loop of `fromParameter` -/

theorem find_eq_none (s : List Char) (ch : Char) : find s ch = none ↔ ch ∉ s := by
  induction s with
  | nil => simp [find]
  | cons c cs ih =>
    unfold find
    by_cases h : c = ch
    · simp [h]
    · simp only [h, if_false, Option.map_eq_none', ih, List.mem_cons]
      constructor
      · intro hn hor
        rcases hor with h1 | h1
        · exact h h1.symm
        · exact hn h1
      · intro hn hmem
        exact hn (Or.inr hmem)

theorem find_of_mem (s : List Char) (ch : Char) (h : ch ∈ s) :
    find s ch = some (s.indexOf ch) := by
  induction s with
  | nil => cases h
  | cons c cs ih =>
    unfold find
    by_cases hc : c = ch
    · simp [hc]
    · have hmem : ch ∈ cs := by
        rcases List.mem_cons.mp h with h1 | h1
        · exact absurd h1.symm hc
        · exact h1
      rw [if_neg hc, ih hmem, List.indexOf_cons_ne _ (fun e => hc e)]
      rfl

theorem findFrom_eq_none (s : List Char) (ch : Char) (pos : Nat) :
    findFrom s ch pos = none ↔ ch ∉ s.drop pos := by
  unfold findFrom
  rw [Option.map_eq_none', find_eq_none]

theorem delimiters_eq_none (token : List Char) :
    delimiters token = none ↔ delimiterDefect token := by
  unfold delimiters delimiterDefect
  by_cases hat : '@' ∈ token
  · by_cases hl : '(' ∈ token
    · rw [find_of_mem token '@' hat, find_of_mem token '(' hl]
      simp only [hat, hl, not_true_eq_false, false_or, gt_iff_lt]
      by_cases hlt : token.indexOf '(' < token.indexOf '@'
      · simp [hlt]
      · simp only [hlt, if_false, false_or]
        cases hr : findFrom token ')' (token.indexOf '(') with
        | none => simpa using (findFrom_eq_none token ')' _).mp hr
        | some r =>
          simp only [reduceCtorEq, false_iff, not_not]
          by_contra hn
          rw [(findFrom_eq_none token ')' _).mpr hn] at hr
          cases hr
    · rw [find_of_mem token '@' hat, (find_eq_none token '(').mpr hl]
      simp [hl]
  · rw [(find_eq_none token '@').mpr hat]
    simp [hat]

theorem parsePartition_error (token : List Char) (e : RKConvertParamErrorCode)
    (h : parsePartition token = .error e) : e = .IllegalMtdPartFormat := by
  unfold parsePartition at h
  split at h
  · injection h with h; exact h.symm
  · simp only at h
    split at h
    · injection h with h; exact h.symm
    · split at h
      · split at h
        · injection h with h; exact h.symm
        · cases h
      · cases h

theorem parsePartition_defect (token : List Char) (h : delimiterDefect token) :
    parsePartition token = .error .IllegalMtdPartFormat := by
  unfold parsePartition
  rw [(delimiters_eq_none token).mpr h]

theorem parseParts_rejects (token : List Char) (hbad : ∃ e, parsePartition token = .error e) :
    ∀ (fuel : Nat) (stream : IStream) (mtdpart : List Char) (parts : List Partition),
      token ∈ splitTokens fuel stream mtdpart →
      parseParts fuel stream mtdpart parts = .error .IllegalMtdPartFormat := by
  intro fuel
  induction fuel with
  | zero => intro stream mtdpart parts hmem; simp [splitTokens] at hmem
  | succ fuel ih =>
    intro stream mtdpart parts hmem
    unfold splitTokens at hmem
    unfold parseParts
    split at hmem
    · cases hmem
    · rename_i hgood
      rw [if_neg hgood]
      cases hp : parsePartition (getline stream mtdpart ',').2 with
      | error e => rw [parsePartition_error _ e hp]
      | ok part =>
        simp only
        rcases List.mem_cons.mp hmem with heq | hrest
        · obtain ⟨e, he⟩ := hbad
          rw [heq, hp] at he
          cases he
        · exact ih _ _ _ hrest

theorem to_uint32_lt (s : List Char) (v : Nat) (h : to_uint32 s = some v) : v < 2 ^ 32 := by
  unfold to_uint32 at h
  simp only at h
  split at h
  · split at h
    · injection h with h; omega
    · cases h
  · cases h

theorem parsePartition_address (token : List Char) (part : Partition)
    (h : parsePartition token = .ok part) : part.address < 2 ^ 32 := by
  unfold parsePartition at h
  split at h
  · cases h
  · simp only at h
    split at h
    · cases h
    · rename_i address haddr
      have hlt := to_uint32_lt _ _ haddr
      split at h
      · split at h
        · cases h
        · injection h with h; rw [← h]; exact hlt
      · injection h with h; rw [← h]; exact hlt

theorem parseParts_tokens :
    ∀ (fuel : Nat) (stream : IStream) (mtdpart : List Char) (acc parts : List Partition),
      List.Forall₂ (fun token part => parsePartition token = .ok part)
        (splitTokens fuel stream mtdpart) parts →
      parseParts fuel stream mtdpart acc = .ok (acc ++ parts) := by
  intro fuel
  induction fuel with
  | zero =>
    intro stream mtdpart acc parts h
    simp only [splitTokens] at h
    cases h
    simp [parseParts]
  | succ fuel ih =>
    intro stream mtdpart acc parts h
    unfold splitTokens at h
    unfold parseParts
    by_cases hfail : (getline stream mtdpart ',').1.failbit = true
    · rw [if_pos hfail] at h ⊢
      cases h
      simp
    · rw [if_neg hfail] at h ⊢
      cases h with
      | cons hhead htail =>
        rw [hhead]
        simp only
        rw [ih _ _ _ _ htail]
        simp

theorem fromParameter_tokens (L : Layout) (path : List Char) (f : DiskFile Char)
    (hopen : f.openable = true) (dir : BaseDir) (auto_scan_args : AutoScanArgument)
    (parts : List Partition) (hcolon : ':' ∈ mtdpartsLine f.content)
    (hparts : List.Forall₂ (fun token part => parsePartition token = .ok part)
      (partTokens (mtdpartsLine f.content)) parts) :
    RKCfgFile.fromParameter L path (some f) dir auto_scan_args
      = addParts L auto_scan_args dir parts
          (((RKCfgFile.empty L).addItem L (loaderItem L auto_scan_args dir) true).addItem L
            (parameterItem L auto_scan_args path) true) := by
  have hfind := find_of_mem _ _ hcolon
  have hne : (mtdpartsLine f.content).isEmpty = false := by
    cases hl : mtdpartsLine f.content with
    | nil => rw [hl] at hcolon; cases hcolon
    | cons c cs => rfl
  unfold partTokens at hparts
  rw [hfind] at hparts
  have hparse := parseParts_tokens _ _ _ [] parts hparts
  unfold mtdpartsLine at hfind hparse hne
  simp only [RKCfgFile.fromParameter, hopen, hne, hfind, hparse]
  simp

theorem parts_address (tokens : List (List Char)) (parts : List Partition)
    (h : List.Forall₂ (fun token part => parsePartition token = .ok part) tokens parts) :
    ∀ p ∈ parts, p.address < 2 ^ 32 := by
  induction h with
  | nil => intro p hp; cases hp
  | cons hhead _ ih =>
    intro p hp
    rcases List.mem_cons.mp hp with h1 | h1
    · rw [h1]; exact parsePartition_address _ _ hhead
    · exact ih p h1

/-! ## The fuel of the two `getline` loops is enough -/

theorem untilDelim_shorter (delim : Char) (l : List Char) (h : (untilDelim delim l).2.2 = true) :
    (untilDelim delim l).2.1.length < l.length := by
  induction l with
  | nil => simp [untilDelim] at h
  | cons c cs ih =>
    unfold untilDelim at h ⊢
    by_cases hc : c = delim
    · simp [hc]
    · simp only [hc, if_false] at h ⊢
      exact Nat.lt_succ_of_lt (ih h)

/-- A successful `getline` leaves a stream that needs one call less. -/
theorem getline_budget (stream : IStream) (str : List Char) (delim : Char)
    (h : (getline stream str delim).1.failbit = false) :
    (getline stream str delim).1.budget + 1 ≤ stream.budget := by
  by_cases hbad : (stream.eofbit || stream.failbit) = true
  · have hf : (getline stream str delim).1.failbit = true := by simp [getline, hbad]
    rw [hf] at h; cases h
  · have hb : stream.budget = stream.rest.length + 1 := by simp [IStream.budget, hbad]
    by_cases hfound : (untilDelim delim stream.rest).2.2 = true
    · have hg : (getline stream str delim).1
          = { rest := (untilDelim delim stream.rest).2.1, eofbit := false, failbit := false } := by
        simp [getline, hbad, hfound]
      have := untilDelim_shorter delim stream.rest hfound
      rw [hg, hb]
      simp only [IStream.budget, Bool.or_self, Bool.false_eq_true, if_false]
      omega
    · have hg : (getline stream str delim).1
          = { rest := [], eofbit := true, failbit := stream.rest.isEmpty } := by
        simp [getline, hbad, hfound]
      rw [hg] at h ⊢
      have hpos : 0 < stream.rest.length := by
        cases hr : stream.rest with
        | nil => rw [hr] at h; simp at h
        | cons c cs => simp
      rw [hb]
      simp only [IStream.budget, Bool.true_or, if_true]
      omega

theorem scanLines_fuel :
    ∀ (fuel : Nat) (file : IStream) (mtdparts : List Char), file.budget ≤ fuel →
      scanLines (fuel + 1) file mtdparts = scanLines fuel file mtdparts := by
  intro fuel
  induction fuel with
  | zero =>
    intro file mtdparts h
    unfold IStream.budget at h
    split at h <;> omega
  | succ fuel ih =>
    intro file mtdparts h
    rw [scanLines, scanLines.eq_def (fuel + 1)]
    simp only
    by_cases hfail : (getline file mtdparts newline).1.failbit = true
    · simp [hfail]
    · have hb := getline_budget file mtdparts newline (by simpa using hfail)
      simp only [hfail, if_false]
      rw [ih (getline file mtdparts newline).1 _ (by omega)]

theorem parseParts_fuel :
    ∀ (fuel : Nat) (stream : IStream) (mtdpart : List Char) (parts : List Partition),
      stream.budget ≤ fuel →
      parseParts (fuel + 1) stream mtdpart parts = parseParts fuel stream mtdpart parts := by
  intro fuel
  induction fuel with
  | zero =>
    intro stream mtdpart parts h
    unfold IStream.budget at h
    split at h <;> omega
  | succ fuel ih =>
    intro stream mtdpart parts h
    rw [parseParts, parseParts.eq_def (fuel + 1)]
    simp only
    by_cases hfail : (getline stream mtdpart ',').1.failbit = true
    · simp [hfail]
    · have hb := getline_budget stream mtdpart ',' (by simpa using hfail)
      simp only [hfail, if_false]
      cases parsePartition (getline stream mtdpart ',').2 with
      | error e => rfl
      | ok part => exact ih (getline stream mtdpart ',').1 _ _ (by omega)

/-- The line loop run with any larger fuel ends with the same `mtdparts`. -/
theorem scanLines_enough (content : List Char) (extra : Nat) :
    scanLines (content.length + 2 + extra) (IStream.open content) [] = mtdpartsLine content := by
  induction extra with
  | zero => rfl
  | succ extra ih =>
    rw [← ih, ← Nat.add_assoc]
    exact scanLines_fuel _ _ _ (by simp [IStream.budget, IStream.open]; omega)

/-- The token loop run with any larger fuel gives the same result. -/
theorem parseParts_enough (specs : List Char) (extra : Nat) :
    parseParts (specs.length + 1 + extra) (IStream.open specs) [] []
      = parseParts (specs.length + 1) (IStream.open specs) [] [] := by
  induction extra with
  | zero => rfl
  | succ extra ih =>
    rw [← ih, ← Nat.add_assoc]
    exact parseParts_fuel _ _ _ _ (by simp [IStream.budget, IStream.open])

/-! ## The boot-log converter: claims C6 to C10 -/

/-- C6: for every openable boot log whose line `mtdparts` has a `:` and whose
partition tokens behind it parse, one by one and in order, into the partitions
`parts`, with names that fit the name member, `fromParameter` (whatever the
auto-scan setting and the directory) returns a configuration of
`parts.length + 2` items with that header count: first a selected item named
`Loader` at address 0, second a selected item named `parameter` at address 0,
then one selected item per partition, in the order of the line, with the name
and the address of that partition.  The layout is supposed to leave room for
the name `parameter`, 32 bits for the address and at least a byte for the
flag, and the count member to hold `parts.length + 2`. -/
theorem C6_fromParameter_items (L : Layout) (hL : L.wf) (hsel : 0 < L.selectedF.width)
    (haddr : 4 ≤ L.addressF.width) (hmax : 9 < L.maxName) (path : List Char)
    (f : DiskFile Char) (hopen : f.openable = true) (dir : BaseDir)
    (auto_scan_args : AutoScanArgument) (parts : List Partition)
    (hcolon : ':' ∈ mtdpartsLine f.content)
    (hparts : List.Forall₂ (fun token part => parsePartition token = .ok part)
      (partTokens (mtdpartsLine f.content)) parts)
    (hfit : ∀ p ∈ parts, (utf16 p.name).length < L.maxName)
    (hcount : parts.length + 2 < 256 ^ L.lengthF.width) :
    ∃ c loader parameter items,
      RKCfgFile.fromParameter L path (some f) dir auto_scan_args = .ok c ∧
      c.m_items = loader :: parameter :: items ∧
      c.m_items.length = parts.length + 2 ∧
      L.lengthF.get c.m_header = parts.length + 2 ∧
      describes L loader "Loader".toList 0 ∧
      describes L parameter "parameter".toList 0 ∧
      List.Forall₂ (fun item p => describes L item p.name p.address) items parts := by
  have h32 : ∀ p ∈ parts, p.address < 256 ^ L.addressF.width := by
    intro p hp
    have h1 := parts_address _ parts hparts p hp
    have h2 : 256 ^ 4 ≤ 256 ^ L.addressF.width := Nat.pow_le_pow_right (by decide) haddr
    exact Nat.lt_of_lt_of_le h1 (by simpa using h2)
  obtain ⟨items, hadd, hall⟩ := addParts_fits L hL hsel auto_scan_args dir parts h32 hfit
    (((RKCfgFile.empty L).addItem L (loaderItem L auto_scan_args dir) true).addItem L
      (parameterItem L auto_scan_args path) true)
  have hlen := hall.length_eq
  have hin : inside L.lengthF.off L.lengthF.width (defaultHeader L).length := by
    rw [length_defaultHeader L hL]; exact hL.1.2.2.2
  refine ⟨_, loaderItem L auto_scan_args dir, parameterItem L auto_scan_args path, items,
    (fromParameter_tokens L path f hopen dir auto_scan_args parts hcolon hparts).trans hadd,
    by simp [RKCfgFile.addItem, RKCfgFile.empty],
    by simp [RKCfgFile.addItem, RKCfgFile.empty, hlen],
    ?_, (loaderItem_describes L hL hsel hmax auto_scan_args dir).2,
    (parameterItem_describes L hL hsel hmax auto_scan_args path).2, hall⟩
  simp only [RKCfgFile.addItem, RKCfgFile.empty, if_true]
  rw [← Function.iterate_succ_apply, ← Function.iterate_succ_apply,
    get_iterate_incLength L _ _ hin, get_length_defaultHeader L hL, Nat.zero_add,
    Nat.mod_eq_of_lt hcount]

set_option maxRecDepth 100000 in
/-- C6, witness: the log of the specification gives the four items Loader,
parameter, uboot and userdisk, the last two at 0x00004000 and 0x0123a000. -/
theorem C6_fromParameter_items_witness :
    ∃ c loader parameter items,
      RKCfgFile.fromParameter sampleLayout "parameter.txt".toList (some claimLog) emptyDir noScan
        = .ok c ∧
      c.m_items = loader :: parameter :: items ∧
      c.m_items.length = claimParts.length + 2 ∧
      sampleLayout.lengthF.get c.m_header = claimParts.length + 2 ∧
      describes sampleLayout loader "Loader".toList 0 ∧
      describes sampleLayout parameter "parameter".toList 0 ∧
      List.Forall₂ (fun item p => describes sampleLayout item p.name p.address) items
        claimParts :=
  C6_fromParameter_items sampleLayout (by decide) (by decide) (by decide) (by decide)
    "parameter.txt".toList claimLog rfl emptyDir noScan claimParts (by decide) (by decide)
    (by decide) (by decide)

/-- C7, the part that holds: when the first `)` behind the first `(` is the
last character of a token that parses, the parsed name is the text strictly
between the two, less a trailing `:grow` when the size token is `-`. -/
theorem parsePartition_name_closed (token : List Char) (part : Partition)
    (at_mark_pos left_pos right_pos : Nat)
    (hd : delimiters token = some (at_mark_pos, left_pos, right_pos))
    (hlast : right_pos + 1 = token.length) (hparse : parsePartition token = .ok part) :
    part.name =
      if substr token 0 at_mark_pos = "-".toList then
        remove_suffix (substr token (left_pos + 1) (right_pos - left_pos - 1)) ":grow".toList
      else substr token (left_pos + 1) (right_pos - left_pos - 1) := by
  have hn : token.length - left_pos - 2 = right_pos - left_pos - 1 := by omega
  unfold parsePartition at hparse
  rw [hd] at hparse
  simp only [hn] at hparse
  split at hparse
  · cases hparse
  · split at hparse
    · rename_i hsize
      split at hparse
      · cases hparse
      · injection hparse with h
        rw [← h, if_neg hsize]
    · rename_i hsize
      injection hparse with h
      rw [← h, if_pos (not_not.mp hsize)]

/-- C7, the failing input: on `0x00002000@0x00004000(uboot)ro` the delimiter
checks pass with `(` at 21 and the first `)` at 27, size and address parse,
the text strictly between the parentheses is `uboot`, and the parsed name is
`uboot)r`. -/
theorem C7_name_runs_past_parenthesis :
    delimiters flaggedToken = some (10, 21, 27) ∧
      substr flaggedToken 22 5 = "uboot".toList ∧
      parsePartition flaggedToken
        = .ok { name := "uboot)r".toList, address := 16384, size := some 8192 } := by
  refine ⟨by decide, by decide, by rfl⟩

/-- C8: in every openable boot log, a partition token of the line `mtdparts`
that has no `@`, or no `(`, or its first `@` behind its first `(`, or no `)`
from that `(` on, makes `fromParameter` fail with `IllegalMtdPartFormat`; and
a token with none of these four defects passes the delimiter checks. -/
theorem C8_delimiter_checks (L : Layout) (path : List Char) (f : DiskFile Char)
    (hopen : f.openable = true) (dir : BaseDir) (auto_scan_args : AutoScanArgument)
    (token : List Char) :
    (token ∈ partTokens (mtdpartsLine f.content) → delimiterDefect token →
      RKCfgFile.fromParameter L path (some f) dir auto_scan_args
        = .error .IllegalMtdPartFormat) ∧
    (¬ delimiterDefect token → (delimiters token).isSome = true) := by
  constructor
  · intro hmem hdef
    unfold partTokens at hmem
    cases hcolon : find (mtdpartsLine f.content) ':' with
    | none => rw [hcolon] at hmem; cases hmem
    | some pos =>
      rw [hcolon] at hmem
      have hrej := parseParts_rejects token ⟨_, parsePartition_defect token hdef⟩ _ _ _ [] hmem
      have hne : (mtdpartsLine f.content).isEmpty = false := by
        cases hl : mtdpartsLine f.content with
        | nil => rw [hl] at hcolon; simp [find] at hcolon
        | cons c cs => rfl
      unfold mtdpartsLine at hcolon hrej hne
      simp only [RKCfgFile.fromParameter, hopen, hne, hcolon, hrej]
      simp
  · intro hok
    cases hd : delimiters token with
    | none => exact absurd ((delimiters_eq_none token).mp hd) hok
    | some r => rfl

set_option maxRecDepth 100000 in
/-- C8, witness: the token `0x0123a000(userdisk)` of `noAtLog` has no `@`. -/
theorem C8_delimiter_checks_witness :
    RKCfgFile.fromParameter sampleLayout "parameter.txt".toList (some noAtLog) emptyDir noScan
        = .error .IllegalMtdPartFormat ∧
      (delimiters flaggedToken).isSome = true :=
  ⟨(C8_delimiter_checks sampleLayout "parameter.txt".toList noAtLog rfl emptyDir noScan
      "0x0123a000(userdisk)".toList).1 (by decide) (by decide),
    (C8_delimiter_checks sampleLayout "parameter.txt".toList noAtLog rfl emptyDir noScan
      flaggedToken).2 (by decide)⟩

set_option maxRecDepth 100000 in
/-- C9, the failing inputs: neither log has a line that begins with
`mtdparts=`, with or without the marker `CMDLINE: `, and neither ends with a
line end.  After the loop `mtdparts` still holds the last line, so the first
log fails with `IllegalMtdPartFormat` (no `:`) and the second is converted,
its last line being parsed as a partition table; with a line end behind the
last line the first log does fail with `MtdPartsNotFound`. -/
theorem C9_last_line_is_parsed :
    starts_with unterminatedLog.content "mtdparts=".toList = false ∧
      starts_with unterminatedLog.content "CMDLINE: ".toList = false ∧
      mtdpartsLine unterminatedLog.content = unterminatedLog.content ∧
      RKCfgFile.fromParameter sampleLayout "parameter.txt".toList (some unterminatedLog) emptyDir
        noScan = .error .IllegalMtdPartFormat ∧
      (∃ c, RKCfgFile.fromParameter sampleLayout "parameter.txt".toList (some strayTableLog)
          emptyDir noScan = .ok c ∧ c.m_items.length = 3) ∧
      RKCfgFile.fromParameter sampleLayout "parameter.txt".toList
        (some { unterminatedLog with content := unterminatedLog.content ++ [newline] }) emptyDir
        noScan = .error .MtdPartsNotFound := by
  refine ⟨by decide, by decide, by decide, by rfl, ⟨_, by rfl, by decide⟩, by rfl⟩

/-- C10: for every openable boot log whose line `mtdparts` has a `:` and whose
partition tokens behind it all parse, into the partitions `parts`, if the name
of some parsed partition does not fit the name member (its encoded length is
at least `RK_V286_MAX_NAME_SIZE`), `fromParameter` fails with
`IllegalMtdPartFormat`. -/
theorem C10_name_overflow (L : Layout) (path : List Char) (f : DiskFile Char)
    (hopen : f.openable = true) (dir : BaseDir) (auto_scan_args : AutoScanArgument)
    (parts : List Partition) (hcolon : ':' ∈ mtdpartsLine f.content)
    (hparts : List.Forall₂ (fun token part => parsePartition token = .ok part)
      (partTokens (mtdpartsLine f.content)) parts)
    (hover : ∃ p ∈ parts, L.maxName ≤ (utf16 p.name).length) :
    RKCfgFile.fromParameter L path (some f) dir auto_scan_args
      = .error .IllegalMtdPartFormat := by
  rw [fromParameter_tokens L path f hopen dir auto_scan_args parts hcolon hparts]
  exact addParts_overflow L auto_scan_args dir parts hover _

set_option maxRecDepth 100000 in
/-- C10, witness: a name of sixteen characters does not fit the sixteen units
of the sample layout. -/
theorem C10_name_overflow_witness :
    RKCfgFile.fromParameter sampleLayout "parameter.txt".toList (some longNameLog) emptyDir noScan
      = .error .IllegalMtdPartFormat :=
  C10_name_overflow sampleLayout "parameter.txt".toList longNameLog rfl emptyDir noScan
    [{ name := "abcdefghijklmnop".toList, address := 16384, size := some 8192 }] (by decide)
    (by decide) (by decide)

/-! ## The binary codec and the mutators: claims C14, C15, C18 and C19 -/

theorem chunksOf_spec (size : Nat) :
    ∀ (n : Nat) (bs : List UInt8), bs.length = size * n →
      (chunksOf size n bs).flatten = bs ∧ (chunksOf size n bs).length = n ∧
        ∀ item ∈ chunksOf size n bs, item.length = size := by
  intro n
  induction n with
  | zero =>
    intro bs h
    have : bs = [] := List.length_eq_zero.mp (by simpa using h)
    simp [chunksOf, this]
  | succ n ih =>
    intro bs h
    have hle : size ≤ bs.length := by rw [h, Nat.mul_succ]; omega
    have hd : (bs.drop size).length = size * n := by
      rw [List.length_drop, h, Nat.mul_succ]; omega
    obtain ⟨h1, h2, h3⟩ := ih (bs.drop size) hd
    refine ⟨?_, ?_, ?_⟩
    · simp only [chunksOf, List.flatten_cons, h1, List.take_append_drop]
    · simp only [chunksOf, List.length_cons, h2]
    · intro item hitem
      simp only [chunksOf, List.mem_cons] at hitem
      rcases hitem with h0 | h0
      · rw [h0, List.length_take]; omega
      · exact h3 item h0

/-- What `fromFile` returns when it accepts: the checks that were passed, and
the configuration built by the item loop. -/
theorem fromFile_ok (L : Layout) (f : DiskFile UInt8) (c : RKCfgFile)
    (h : RKCfgFile.fromFile L (some f) = some (.ok c)) :
    L.headerSize ≤ f.content.length ∧
      L.itemSizeF.get (f.content.take L.headerSize) = L.itemSize ∧
      legalSize L (f.content.take L.headerSize) = some f.content.length ∧
      c = loadItems L f.content (L.lengthF.get (f.content.take L.headerSize)) 0 false
        { m_header := f.content.take L.headerSize, m_items := [] } := by
  simp only [RKCfgFile.fromFile, RKCfgFile.empty] at h
  split at h
  · cases h
  · rename_i hsize
    split at h
    · cases h
    · split at h
      · cases h
      · split at h
        · cases h
        · rename_i hitem
          split at h
          · cases h
          · rename_i legal hlegal
            split at h
            · cases h
            · rename_i hsame
              simp only [Option.some.injEq, Except.ok.injEq] at h
              simp only [ne_eq, Decidable.not_not] at hitem hsame
              rw [← hsame] at hlegal
              exact ⟨Nat.le_of_not_lt hsize, hitem, hlegal, h.symm⟩

/-- C15: for every configuration whose records have their compiled sizes, the
bytes that `save` writes in binary mode are the header record followed by the
item records in list order and nothing else: the output has
`headerSize + itemSize * (number of items)` bytes, it starts with the header,
and the record of every item sits at `headerSize + itemSize * (its index)`. -/
theorem C15_save_is_header_then_items (L : Layout) (c : RKCfgFile) (hsized : c.sized L) :
    ∃ bytes, c.saveBinary true = .ok bytes ∧
      bytes = c.m_header ++ c.m_items.flatten ∧
      bytes.length = L.headerSize + L.itemSize * c.m_items.length ∧
      bytes.take L.headerSize = c.m_header ∧
      ∀ (pre rest : List (List UInt8)) (item : List UInt8), c.m_items = pre ++ item :: rest →
        readBytes bytes (L.headerSize + pre.length * L.itemSize) L.itemSize = item := by
  obtain ⟨hh, hitems⟩ := hsized
  refine ⟨c.m_header ++ c.m_items.flatten, rfl, rfl, ?_, ?_, ?_⟩
  · rw [List.length_append, length_flatten_sized c.m_items L.itemSize hitems, hh, Nat.mul_comm]
  · rw [← hh, List.take_left]
  · intro pre rest item hsplit
    rw [hsplit, ← hh]
    refine readBytes_record c.m_header pre rest item L.itemSize ?_ ?_
    · intro x hx; exact hitems x (by rw [hsplit]; exact List.mem_append_left _ hx)
    · exact hitems item (by rw [hsplit]; simp)

/-- C15, witness: the two-item sample configuration is written as 12 + 88 * 2 bytes. -/
theorem C15_save_is_header_then_items_witness :
    ∃ bytes, sampleConfig.saveBinary true = .ok bytes ∧
      bytes = sampleConfig.m_header ++ sampleConfig.m_items.flatten ∧
      bytes.length = sampleLayout.headerSize + sampleLayout.itemSize * sampleConfig.m_items.length ∧
      bytes.take sampleLayout.headerSize = sampleConfig.m_header ∧
      ∀ (pre rest : List (List UInt8)) (item : List UInt8),
        sampleConfig.m_items = pre ++ item :: rest →
        readBytes bytes (sampleLayout.headerSize + pre.length * sampleLayout.itemSize)
          sampleLayout.itemSize = item :=
  C15_save_is_header_then_items sampleLayout sampleConfig (by decide)

/-- C19, the part that holds: for every file that `fromFile` accepts, whose
header-length member (`begin`) equals the compiled header size and whose item
size times count the size test computes without overflow, saving the loaded
configuration in binary mode writes exactly the bytes of the file. -/
theorem load_then_save (L : Layout) (f : DiskFile UInt8) (c : RKCfgFile)
    (hload : RKCfgFile.fromFile L (some f) = some (.ok c))
    (hbegin : L.beginF.get (f.content.take L.headerSize) = L.headerSize)
    (hfits : sizeFits L (L.itemSize * L.lengthF.get (f.content.take L.headerSize))) :
    c.saveBinary true = .ok f.content := by
  obtain ⟨hsize, hitem, hlegal', hc⟩ := fromFile_ok L f c hload
  have hlegal : f.content.length
      = L.headerSize + L.itemSize * L.lengthF.get (f.content.take L.headerSize) := by
    have := legalSize_of_fits L (f.content.take L.headerSize) (by rw [hitem]; exact hfits)
    rw [hitem, hlegal'] at this
    exact Option.some.inj this
  have hdrop : (f.content.drop L.headerSize).length
      = L.itemSize * L.lengthF.get (f.content.take L.headerSize) := by
    rw [List.length_drop]; omega
  obtain ⟨hflat, hlen, hsz⟩ := chunksOf_spec L.itemSize _ _ hdrop
  have hh : (f.content.take L.headerSize).length = L.headerSize := by
    rw [List.length_take]; omega
  have hsaved := loadItems_saved L (f.content.take L.headerSize)
    (chunksOf L.itemSize (L.lengthF.get (f.content.take L.headerSize))
      (f.content.drop L.headerSize)) []
    { m_header := f.content.take L.headerSize, m_items := [] } hh hbegin hitem (by simp) hsz rfl
  simp only [List.nil_append, List.length_nil, hflat, hlen, List.take_append_drop] at hsaved
  rw [hc, hsaved]
  simp [RKCfgFile.saveBinary, hflat]

set_option maxRecDepth 100000 in
/-- The file that the sample configuration is saved to is accepted by
`fromFile`, and saving what was loaded writes the same bytes. -/
theorem load_then_save_sample :
    ∃ c, RKCfgFile.fromFile sampleLayout
          (some { content := sampleConfig.m_header ++ sampleConfig.m_items.flatten
                  openable := true }) = some (.ok c) ∧
      c.saveBinary true = .ok (sampleConfig.m_header ++ sampleConfig.m_items.flatten) :=
  ⟨sampleConfig, by rfl,
    load_then_save sampleLayout
      { content := sampleConfig.m_header ++ sampleConfig.m_items.flatten, openable := true }
      sampleConfig (by rfl) (by decide) (by decide)⟩

/-- C14, the part that holds: for an index below the length of the list,
`removeItem(index)` removes the item at that position, keeps the others in
order and decrements the header count by one (modulo the capacity of the
count member). -/
theorem removeItem_in_range (L : Layout) (hL : L.wf) (c : RKCfgFile)
    (hheader : c.m_header.length = L.headerSize) (pre rest : List (List UInt8))
    (item : List UInt8) (hsplit : c.m_items = pre ++ item :: rest) :
    ∃ c', c.removeItem L pre.length = some c' ∧ c'.m_items = pre ++ rest ∧
      (L.lengthF.get c'.m_header + 1) % 256 ^ L.lengthF.width = L.lengthF.get c.m_header := by
  have hin : inside L.lengthF.off L.lengthF.width c.m_header.length := by
    rw [hheader]; exact hL.1.2.2.2
  have hlt : pre.length < c.m_items.length := by rw [hsplit]; simp
  refine ⟨_, by rw [RKCfgFile.removeItem, if_pos hlt], ?_, get_decLength_succ L c.m_header hin⟩
  simp [hsplit]

set_option maxRecDepth 100000 in
/-- C14, the failing input: on the configuration of the four items A, B, C, D
the call `removeItem(4)` has no defined result (`erase` at `end()`), and the
statement `m_header.length--` that follows it without any test takes the
count from 4 to 3; at index 1 the call removes B and leaves the count at 3. -/
theorem C14_no_bounds_check :
    configABCD.removeItem sampleLayout 4 = none ∧
      sampleLayout.lengthF.get configABCD.m_header = 4 ∧
      sampleLayout.lengthF.get (decLength sampleLayout configABCD.m_header) = 3 ∧
      (configABCD.removeItem sampleLayout 1).map (fun c => c.m_items)
        = some [itemA, itemC, itemD] := by
  refine ⟨by rfl, by decide, by decide, by rfl⟩

theorem keptFrom_append (filters : List ItemFilter) (pre rest : List (List UInt8)) :
    ∀ idx : Nat, keptFrom filters idx (pre ++ rest)
      = keptFrom filters idx pre
        ++ keptFrom filters (idx + (keptFrom filters idx pre).length) rest := by
  induction pre with
  | nil => intro idx; simp [keptFrom]
  | cons x xs ih =>
    intro idx
    by_cases hm : filters.any (fun filter => filter idx x) = true
    · have h1 : keptFrom filters idx (x :: (xs ++ rest)) = keptFrom filters idx (xs ++ rest) := by
        rw [keptFrom, if_pos hm]
      have h2 : keptFrom filters idx (x :: xs) = keptFrom filters idx xs := by
        rw [keptFrom, if_pos hm]
      rw [List.cons_append, h1, h2, ih]
    · have h1 : keptFrom filters idx (x :: (xs ++ rest))
          = x :: keptFrom filters (idx + 1) (xs ++ rest) := by
        rw [keptFrom, if_neg hm]
      have h2 : keptFrom filters idx (x :: xs) = x :: keptFrom filters (idx + 1) xs := by
        rw [keptFrom, if_neg hm]
      have e : idx + 1 + (keptFrom filters (idx + 1) xs).length
          = idx + ((keptFrom filters (idx + 1) xs).length + 1) := by omega
      rw [List.cons_append, h1, h2, ih (idx + 1), List.cons_append, List.length_cons, e]

/-- C18 (as amended): in `removeItem(filters)` the position passed to the
filters for an item is the number of earlier items that survived, not its
index in the list as it was when the call started: the item stays exactly
when no filter answers true at that position, behind the survivors of the
earlier items, and the items behind it are met from the position that
follows. -/
theorem C18_filter_position (L : Layout) (c : RKCfgFile) (filters : List ItemFilter)
    (pre rest : List (List UInt8)) (item : List UInt8)
    (hsplit : c.m_items = pre ++ item :: rest) :
    (c.removeItemIf L filters).m_items
      = ({ c with m_items := pre }.removeItemIf L filters).m_items
        ++ (if filters.any (fun filter =>
              filter ({ c with m_items := pre }.removeItemIf L filters).m_items.length item) then
            keptFrom filters ({ c with m_items := pre }.removeItemIf L filters).m_items.length
              rest
          else
            item ::
              keptFrom filters
                (({ c with m_items := pre }.removeItemIf L filters).m_items.length + 1) rest) := by
  rw [removeItemIf_eq, removeItemIf_eq]
  simp only [hsplit, keptFrom_append, Nat.zero_add]
  by_cases hm : filters.any (fun filter => filter (keptFrom filters 0 pre).length item) = true
  · rw [if_pos hm, keptFrom, if_pos hm]
  · rw [if_neg hm, keptFrom, if_neg hm]

set_option maxRecDepth 100000 in
/-- C18, witness: with the filter that matches the positions 1 and 3, the item
B of A, B, C, D is met at position 1, behind the survivor A, and is removed. -/
theorem C18_filter_position_witness :
    (configABCD.removeItemIf sampleLayout [filterAt13]).m_items
      = ({ configABCD with m_items := [itemA] }.removeItemIf sampleLayout [filterAt13]).m_items
        ++ (if ([filterAt13] : List ItemFilter).any (fun filter =>
              filter ({ configABCD with m_items := [itemA] }.removeItemIf sampleLayout
                [filterAt13]).m_items.length itemB) then
            keptFrom [filterAt13]
              ({ configABCD with m_items := [itemA] }.removeItemIf sampleLayout
                [filterAt13]).m_items.length [itemC, itemD]
          else
            itemB ::
              keptFrom [filterAt13]
                (({ configABCD with m_items := [itemA] }.removeItemIf sampleLayout
                  [filterAt13]).m_items.length + 1) [itemC, itemD]) :=
  C18_filter_position sampleLayout configABCD [filterAt13] [itemA] [itemC, itemD] itemB
    (by decide)

set_option maxRecDepth 100000 in
/-- C18, counterexample: with the filter that matches the positions 1 and 3,
the items A, B, C, D become A alone, not A, C, D: C and then D slide into
position 1 and are removed there in their turn. -/
theorem C18_sliding_items_counterexample :
    (configABCD.removeItemIf sampleLayout [filterAt13]).m_items = [itemA] ∧
      (configABCD.removeItemIf sampleLayout [filterAt13]).m_items ≠ [itemA, itemC, itemD] := by
  refine ⟨by decide, by decide⟩

/-! ## The line loop: claim C17 -/

theorem untilDelim_found (delim : Char) (l rest : List Char) (h : delim ∉ l) :
    untilDelim delim (l ++ delim :: rest) = (l, rest, true) := by
  induction l with
  | nil => simp [untilDelim]
  | cons c cs ih =>
    have hc : c ≠ delim := fun e => h (by rw [e]; exact List.mem_cons_self _ _)
    have hcs : delim ∉ cs := fun hm => h (List.mem_cons_of_mem _ hm)
    have e : (c :: cs) ++ delim :: rest = c :: (cs ++ delim :: rest) := rfl
    rw [e, untilDelim, if_neg hc, ih hcs]

theorem untilDelim_absent (delim : Char) (l : List Char) (h : delim ∉ l) :
    untilDelim delim l = (l, [], false) := by
  induction l with
  | nil => rfl
  | cons c cs ih =>
    have hc : c ≠ delim := fun e => h (by rw [e]; exact List.mem_cons_self _ _)
    have hcs : delim ∉ cs := fun hm => h (List.mem_cons_of_mem _ hm)
    rw [untilDelim, if_neg hc, ih hcs]

theorem getline_line (l rest str : List Char) (h : newline ∉ l) :
    getline (IStream.open (l ++ newline :: rest)) str newline = (IStream.open rest, l) := by
  simp [getline, IStream.open, untilDelim_found newline l rest h]

theorem getline_last (l str : List Char) (h : newline ∉ l) (hne : l ≠ []) :
    getline (IStream.open l) str newline
      = ({ rest := [], eofbit := true, failbit := false }, l) := by
  have : l.isEmpty = false := by cases l with
    | nil => exact absurd rfl hne
    | cons c cs => rfl
  simp [getline, IStream.open, untilDelim_absent newline l h, this]

theorem selects_ne_nil (line : List Char) (h : selects line = true) : line ≠ [] := by
  intro e
  rw [e] at h
  revert h
  decide

/-- The line loop skips the lines that it does not select and stops at the
first one that it selects, whatever comes behind that line. -/
theorem scanLines_selected (before : List (List Char)) (line tail : List Char)
    (hbefore : ∀ l ∈ before, newline ∉ l ∧ selects l = false) (hline : newline ∉ line)
    (hsel : selects line = true) (htail : tail = [] ∨ tail.head? = some newline) :
    ∀ (fuel : Nat) (mtdparts : List Char), before.length + 1 ≤ fuel →
      scanLines fuel (IStream.open (linesText before ++ line ++ tail)) mtdparts
        = stripMarker line := by
  induction before with
  | nil =>
    intro fuel mtdparts hfuel
    cases fuel with
    | zero => omega
    | succ fuel =>
      have hsel' : starts_with (stripMarker line) "mtdparts=".toList = true := hsel
      rcases htail with ht | ht
      · rw [ht]
        simp only [linesText, List.flatMap_nil, List.nil_append, List.append_nil]
        rw [scanLines, getline_last line mtdparts hline (selects_ne_nil line hsel)]
        simp only [Bool.false_eq_true, if_false]
        unfold stripMarker at hsel' ⊢
        rw [if_pos hsel']
      · cases tail with
        | nil => simp at ht
        | cons t ts =>
          simp only [List.head?_cons, Option.some.injEq] at ht
          rw [ht]
          simp only [linesText, List.flatMap_nil, List.nil_append]
          rw [scanLines, getline_line line ts mtdparts hline]
          simp only [IStream.open, Bool.false_eq_true, if_false]
          unfold stripMarker at hsel' ⊢
          rw [if_pos hsel']
  | cons l ls ih =>
    intro fuel mtdparts hfuel
    cases fuel with
    | zero => omega
    | succ fuel =>
      obtain ⟨hl, hns⟩ := hbefore l (List.mem_cons_self _ _)
      have hns' : starts_with (stripMarker l) "mtdparts=".toList = false := hns
      have htext : linesText (l :: ls) ++ line ++ tail
          = l ++ newline :: (linesText ls ++ line ++ tail) := by
        simp [linesText]
      rw [htext, scanLines, getline_line l _ mtdparts hl]
      simp only [IStream.open, Bool.false_eq_true, if_false]
      unfold stripMarker at hns'
      rw [hns']
      simp only [Bool.false_eq_true, if_false]
      exact ih (fun x hx => hbefore x (List.mem_cons_of_mem _ hx)) fuel _
        (by simpa using hfuel)

theorem length_linesText_ge (lines : List (List Char)) :
    lines.length ≤ (linesText lines).length := by
  induction lines with
  | nil => simp [linesText]
  | cons l ls ih =>
    simp only [linesText, List.flatMap_cons, List.length_append, List.length_cons,
      List.length_nil] at ih ⊢
    omega

theorem fromParameter_congr (L : Layout) (path : List Char) (f g : DiskFile Char)
    (dir : BaseDir) (auto_scan_args : AutoScanArgument) (hopen : f.openable = g.openable)
    (hline : mtdpartsLine f.content = mtdpartsLine g.content) :
    RKCfgFile.fromParameter L path (some f) dir auto_scan_args
      = RKCfgFile.fromParameter L path (some g) dir auto_scan_args := by
  unfold mtdpartsLine at hline
  simp only [RKCfgFile.fromParameter, hopen, hline]

/-- C17: `fromParameter` parses the first line of the log that begins with
`mtdparts=` once its marker `CMDLINE: `, if it has one, is removed, both tests
being made on the same line: when the lines `before` are not selected and
`line` is, whatever `tail` follows (nothing, or a line end and more text),
`mtdparts` is `line` without its marker and the result is the result for the
log made of `line` alone. -/
theorem C17_first_selected_line (L : Layout) (path : List Char) (dir : BaseDir)
    (auto_scan_args : AutoScanArgument) (openable : Bool) (before : List (List Char))
    (line tail : List Char) (hbefore : ∀ l ∈ before, newline ∉ l ∧ selects l = false)
    (hline : newline ∉ line) (hsel : selects line = true)
    (htail : tail = [] ∨ tail.head? = some newline) :
    mtdpartsLine (linesText before ++ line ++ tail) = stripMarker line ∧
      RKCfgFile.fromParameter L path
          (some { content := linesText before ++ line ++ tail, openable := openable }) dir
          auto_scan_args
        = RKCfgFile.fromParameter L path (some { content := line, openable := openable }) dir
          auto_scan_args := by
  have h1 : mtdpartsLine (linesText before ++ line ++ tail) = stripMarker line := by
    unfold mtdpartsLine
    refine scanLines_selected before line tail hbefore hline hsel htail _ _ ?_
    have := length_linesText_ge before
    simp only [List.length_append]
    omega
  have h2 : mtdpartsLine line = stripMarker line := by
    have := scanLines_selected [] line [] (by simp) hline hsel (Or.inl rfl) (line.length + 2) []
      (by simp)
    simpa [mtdpartsLine, linesText] using this
  exact ⟨h1, fromParameter_congr L path _ _ dir auto_scan_args rfl (h1.trans h2.symm)⟩

set_option maxRecDepth 100000 in
/-- C17, witness: in `surroundedLog` the line of `claimLog` is the first that
is selected; the two lines before it, one of them with the marker, and the
line after it change nothing. -/
theorem C17_first_selected_line_witness :
    mtdpartsLine surroundedLog.content = stripMarker claimLog.content ∧
      RKCfgFile.fromParameter sampleLayout "parameter.txt".toList (some surroundedLog) emptyDir
          noScan
        = RKCfgFile.fromParameter sampleLayout "parameter.txt".toList (some claimLog) emptyDir
          noScan :=
  C17_first_selected_line sampleLayout "parameter.txt".toList emptyDir noScan true
    ["U-Boot 2017.09".toList, "CMDLINE: console=ttyFIQ0".toList] claimLog.content
    (newline :: "mtdparts=other:0x1@0x2(x)".toList) (by decide) (by decide) (by decide)
    (by decide)

/-! ## Lemmas on the decoding of wide-character buffers -/

theorem char_toNat_valid (c : Char) :
    c.toNat < 55296 ∨ (57343 < c.toNat ∧ c.toNat < 1114112) := c.valid

theorem unitChar_toNat (c : Char) (h : c.toNat < 65536) : unitChar c.toNat = c := by
  have hv := char_toNat_valid c
  unfold unitChar
  rw [if_neg (by omega), Char.ofNat_toNat]

theorem decode16_utf16Char (c : Char) (rest : List Nat) :
    decode16 (utf16Char c ++ rest) = c :: decode16 rest := by
  have hv := char_toNat_valid c
  unfold utf16Char
  by_cases h : c.toNat < 65536
  · rw [if_pos h]
    cases rest with
    | nil => simp [decode16, unitChar_toNat c h]
    | cons v rest =>
      simp only [List.singleton_append, decode16]
      rw [if_neg (by omega), unitChar_toNat c h]
  · rw [if_neg h]
    simp only [List.cons_append, List.nil_append, decode16]
    have h1 : (c.toNat - 65536) / 1024 < 1024 := by omega
    have h2 : (c.toNat - 65536) % 1024 < 1024 := Nat.mod_lt _ (by decide)
    rw [if_pos (by omega)]
    have e : 65536 + (55296 + (c.toNat - 65536) / 1024 - 55296) * 1024
        + (56320 + (c.toNat - 65536) % 1024 - 56320) = c.toNat := by
      have := Nat.div_add_mod (c.toNat - 65536) 1024
      omega
    rw [e, Char.ofNat_toNat]
    rfl

theorem decode16_utf16 (text : List Char) : decode16 (utf16 text) = text := by
  induction text with
  | nil => rfl
  | cons c cs ih =>
    have : utf16 (c :: cs) = utf16Char c ++ utf16 cs := by simp [utf16]
    rw [this, decode16_utf16Char, ih]

theorem utf16_ne_zero (text : List Char) (h : ∀ c ∈ text, c.toNat ≠ 0) :
    ∀ u ∈ utf16 text, u ≠ 0 := by
  intro u hu
  simp only [utf16, List.mem_flatMap] at hu
  obtain ⟨c, hc, hcu⟩ := hu
  have h0 := h c hc
  unfold utf16Char at hcu
  split at hcu
  · rw [List.mem_singleton.mp hcu]; exact h0
  · simp only [List.mem_cons, List.mem_singleton, List.mem_nil_iff, or_false] at hcu
    rcases hcu with e | e <;> omega

theorem takeWhile_terminated (l tail : List Nat) (h : ∀ u ∈ l, u ≠ 0)
    (htail : tail = [] ∨ tail.head? = some 0) :
    (l ++ tail).takeWhile (fun u => u != 0) = l := by
  induction l with
  | nil =>
    rcases htail with e | e
    · rw [e]; rfl
    · cases tail with
      | nil => rfl
      | cons t ts =>
        simp only [List.head?_cons, Option.some.injEq] at e
        rw [e]; rfl
  | cons x xs ih =>
    have hx : x ≠ 0 := h x (List.mem_cons_self _ _)
    have hxs : ∀ u ∈ xs, u ≠ 0 := fun u hu => h u (List.mem_cons_of_mem _ hu)
    rw [List.cons_append, List.takeWhile_cons_of_pos (by simpa using hx), ih hxs]

/-- A buffer that holds a text without `NUL`, then a terminator or nothing,
decodes to that text. -/
theorem from_char16_terminated (text : List Char) (tail : List Nat)
    (h : ∀ c ∈ text, c.toNat ≠ 0) (htail : tail = [] ∨ tail.head? = some 0) :
    from_char16 (utf16 text ++ tail) = text := by
  unfold from_char16
  rw [takeWhile_terminated _ _ (utf16_ne_zero text h) htail, decode16_utf16]

theorem from_char16_wideBuffer (text : List Char) (maxLen : Nat)
    (h : ∀ c ∈ text, c.toNat ≠ 0) : from_char16 (wideBuffer text maxLen) = text := by
  unfold wideBuffer
  apply from_char16_terminated text _ h
  cases maxLen - (utf16 text).length with
  | zero => exact Or.inl rfl
  | succ k => exact Or.inr rfl

theorem from_char16_zeros (n : Nat) : from_char16 (List.replicate n 0) = [] := by
  unfold from_char16
  cases n with
  | zero => rfl
  | succ n => rfl

/-! ## Lemmas on the members of a built item -/

theorem setName_length (L : Layout) (hL : L.wf) (item : List UInt8)
    (hlen : item.length = L.itemSize) (text : List Char) :
    (setName L item text).1.length = L.itemSize := by
  unfold setName
  cases hto : to_char16 text L.maxName with
  | none => exact hlen
  | some buf =>
    have hbuf : buf.length = L.maxName := by
      unfold to_char16 at hto
      split at hto
      · simp at hto
      · simp only [Option.some.injEq] at hto
        rw [← hto]; simp; omega
    have hin : L.nameOff + (unitsBytes buf).length ≤ item.length := by
      rw [length_unitsBytes, hbuf, hlen]; exact hL.2.2.1.2.2.1
    simp only
    rw [length_writeBytes _ _ _ hin]; exact hlen

theorem setPath_fits (L : Layout) (hL : L.wf) (item : List UInt8)
    (hlen : item.length = L.itemSize) (text : List Char) (h : (utf16 text).length < L.maxPath) :
    itemPath L (setPath L item text).1 = wideBuffer text L.maxPath := by
  have hin : L.pathOff + (unitsBytes (wideBuffer text L.maxPath)).length ≤ item.length := by
    rw [length_unitsBytes, length_wideBuffer text L.maxPath h, hlen]; exact hL.2.2.1.2.2.2
  have hread := readBytes_writeBytes_same item _ L.pathOff hin
  rw [length_unitsBytes, length_wideBuffer text L.maxPath h] at hread
  unfold setPath
  rw [to_char16_fits text L.maxPath h]
  unfold itemPath
  rw [hread, bytesUnits_unitsBytes _ (wideBuffer_lt text L.maxPath)]

/-- Storing the address and the flag leaves the item its size, its name and
its image path, and the two members read back what was stored. -/
theorem stored_members (L : Layout) (hL : L.wf) (item : List UInt8)
    (hlen : item.length = L.itemSize) (address flag : Nat) :
    (L.selectedF.set (L.addressF.set item address) flag).length = L.itemSize ∧
      itemName L (L.selectedF.set (L.addressF.set item address) flag) = itemName L item ∧
      itemPath L (L.selectedF.set (L.addressF.set item address) flag) = itemPath L item ∧
      L.addressF.get (L.selectedF.set (L.addressF.set item address) flag)
        = address % 256 ^ L.addressF.width ∧
      L.selectedF.get (L.selectedF.set (L.addressF.set item address) flag)
        = flag % 256 ^ L.selectedF.width := by
  obtain ⟨_, _, ⟨hs, hadr, _, _⟩, ⟨sa, sn, sp, an, ap, _⟩⟩ := hL
  have hina : inside L.addressF.off L.addressF.width item.length := by rw [hlen]; exact hadr
  have hla := Field.length_set L.addressF item address hina
  have hins : inside L.selectedF.off L.selectedF.width (L.addressF.set item address).length := by
    rw [hla, hlen]; exact hs
  refine ⟨by rw [Field.length_set _ _ _ hins, hla, hlen], ?_, ?_, ?_, ?_⟩
  · unfold itemName Field.set
    rw [readBytes_writeBytes_apart _ _ _ _ _ (by rw [length_leBytes]; exact hins)
        (by rw [length_leBytes]; exact sn),
      readBytes_writeBytes_apart _ _ _ _ _ (by rw [length_leBytes]; exact hina)
        (by rw [length_leBytes]; exact an)]
  · unfold itemPath Field.set
    rw [readBytes_writeBytes_apart _ _ _ _ _ (by rw [length_leBytes]; exact hins)
        (by rw [length_leBytes]; exact sp),
      readBytes_writeBytes_apart _ _ _ _ _ (by rw [length_leBytes]; exact hina)
        (by rw [length_leBytes]; exact ap)]
  · rw [Field.get_set_apart L.selectedF L.addressF _ _ hins sa, Field.get_set _ _ _ hina]
  · rw [Field.get_set _ _ _ hins]

/-- C16, the part that holds: with auto-scan enabled, when prefix and path
together fit the path member and hold no `NUL`, the image path of the item
`parameter` decodes to the prefix followed by the path. -/
theorem parameterItem_path (L : Layout) (hL : L.wf) (auto_scan_args : AutoScanArgument)
    (path : List Char) (henabled : auto_scan_args.enabled = true)
    (hfit : (utf16 (auto_scan_args.pfx ++ path)).length < L.maxPath)
    (htext : ∀ c ∈ auto_scan_args.pfx ++ path, c.toNat ≠ 0) :
    from_char16 (itemPath L (parameterItem L auto_scan_args path))
      = auto_scan_args.pfx ++ path := by
  have h1 := setName_length L hL (defaultItem L) (length_defaultItem L) "parameter".toList
  have h2 := setPath_keeps L hL _ h1 (auto_scan_args.pfx ++ path)
  unfold parameterItem
  simp only [henabled, if_true]
  rw [(stored_members L hL _ h2.1 0 1).2.2.1, setPath_fits L hL _ h1 _ hfit,
    from_char16_wideBuffer _ _ htext]

set_option maxRecDepth 100000 in
/-- C16, the failing input: with auto-scan enabled, the prefix `images/` and
the log path `logs/2024/parameter.txt` make thirty code units, the path member
of the sample layout has twenty-four; the conversion of the log of the
specification succeeds and the image path of its second item decodes to the
empty text, not to the prefix followed by the path. -/
theorem C16_overlong_path_left_empty :
    (utf16 (imagesScan.pfx ++ longPath)).length = 30 ∧ sampleLayout.maxPath = 24 ∧
      ∃ c loader parameter rest,
        RKCfgFile.fromParameter sampleLayout longPath (some claimLog) emptyDir imagesScan
          = .ok c ∧
        c.m_items = loader :: parameter :: rest ∧
        itemName sampleLayout parameter = wideBuffer "parameter".toList 16 ∧
        from_char16 (itemPath sampleLayout parameter) = [] ∧
        from_char16 (itemPath sampleLayout parameter) ≠ imagesScan.pfx ++ longPath := by
  refine ⟨by decide, by decide, _, _, _, _, by rfl, rfl, by decide, by decide, by decide⟩

/-! ## Lemmas on the item loop of `fromJson` -/

theorem memberValue_ofNat (width value : Nat) :
    memberValue width (Int.ofNat value) = value % 256 ^ width := by
  unfold memberValue
  have h : (256 ^ width : Int) = ((256 ^ width : Nat) : Int) := by push_cast; rfl
  rw [h]
  exact Int.toNat_ofNat _

theorem memberValue_lt (width : Nat) (n : Int) : memberValue width n < 256 ^ width := by
  unfold memberValue
  have h : (256 ^ width : Int) = ((256 ^ width : Nat) : Int) := by push_cast; rfl
  have hpos : (0 : Int) < ((256 ^ width : Nat) : Int) := by
    exact_mod_cast pow256_pos width
  rw [h]
  have h1 := Int.emod_lt_of_pos n hpos
  have h0 := Int.emod_nonneg n (ne_of_gt hpos)
  omega

theorem itemOfJson_reads (L : Layout) (item_data : Json)
    (values : List Char × List Char × Int × Int) (h : reads item_data values) :
    itemOfJson L item_data
      = .ok (builtItem L values.1 values.2.1 values.2.2.1 values.2.2.2) := by
  obtain ⟨h1, h2, h3, h4⟩ := h
  unfold itemOfJson builtItem
  rw [h1, h2, h3, h4]

theorem addJsonItems_reads (L : Layout) (datas : List Json)
    (values : List (List Char × List Char × Int × Int)) (h : List.Forall₂ reads datas values) :
    ∀ file : RKCfgFile,
      addJsonItems L datas file
        = .ok { m_header := (incLength L)^[values.length] file.m_header
                m_items := file.m_items
                  ++ values.map (fun v => builtItem L v.1 v.2.1 v.2.2.1 v.2.2.2) } := by
  induction h with
  | nil => intro file; simp [addJsonItems]
  | cons hhead _ ih =>
    intro file
    rw [addJsonItems, itemOfJson_reads L _ _ hhead]
    simp only [ih]
    simp [RKCfgFile.addItem, Function.iterate_succ_apply]

theorem builtItem_members (L : Layout) (hL : L.wf) (name image_path : List Char)
    (address is_selected : Int) :
    (builtItem L name image_path address is_selected).length = L.itemSize ∧
      L.addressF.get (builtItem L name image_path address is_selected)
        = memberValue L.addressF.width address ∧
      L.selectedF.get (builtItem L name image_path address is_selected)
        = memberValue L.selectedF.width is_selected ∧
      ((utf16 name).length < L.maxName →
        itemName L (builtItem L name image_path address is_selected)
          = wideBuffer name L.maxName) ∧
      ((utf16 image_path).length < L.maxPath →
        itemPath L (builtItem L name image_path address is_selected)
          = wideBuffer image_path L.maxPath) := by
  have h1 := setName_length L hL (defaultItem L) (length_defaultItem L) name
  have h2 := setPath_keeps L hL _ h1 image_path
  obtain ⟨m1, m2, m3, m4, m5⟩ := stored_members L hL _ h2.1
    (memberValue L.addressF.width address) (memberValue L.selectedF.width is_selected)
  unfold builtItem
  refine ⟨m1, ?_, ?_, ?_, ?_⟩
  · rw [m4, Nat.mod_eq_of_lt (memberValue_lt _ _)]
  · rw [m5, Nat.mod_eq_of_lt (memberValue_lt _ _)]
  · intro hfit
    rw [m2, h2.2]
    exact (setName_fits L hL (defaultItem L) (length_defaultItem L) name hfit).2.2
  · intro hfit
    rw [m3]
    exact setPath_fits L hL _ h1 image_path hfit

theorem get_begin_defaultHeader (L : Layout) (hL : L.wf) :
    L.beginF.get (defaultHeader L) = L.headerSize % 256 ^ L.beginF.width := by
  obtain ⟨⟨hm, hb, hi, _⟩, ⟨_, _, _, bi, _, _⟩, _⟩ := hL
  have h1 : (writeBytes (List.replicate L.headerSize 0) L.magicOff magicCFG).length
      = L.headerSize := by
    rw [length_writeBytes _ _ _ (by simpa [magicCFG] using hm)]; simp
  have h2 := Field.length_set L.beginF _ L.headerSize (by rw [h1]; exact hb)
  unfold defaultHeader
  rw [Field.get_set_apart L.itemSizeF L.beginF _ _ (by rw [h2, h1]; exact hi) bi.symm,
    Field.get_set _ _ _ (by rw [h1]; exact hb)]

theorem get_itemSize_defaultHeader (L : Layout) (hL : L.wf) :
    L.itemSizeF.get (defaultHeader L) = L.itemSize % 256 ^ L.itemSizeF.width := by
  obtain ⟨⟨hm, hb, hi, _⟩, _⟩ := hL
  have h1 : (writeBytes (List.replicate L.headerSize 0) L.magicOff magicCFG).length
      = L.headerSize := by
    rw [length_writeBytes _ _ _ (by simpa [magicCFG] using hm)]; simp
  have h2 := Field.length_set L.beginF _ L.headerSize (by rw [h1]; exact hb)
  unfold defaultHeader
  rw [Field.get_set _ _ _ (by rw [h2, h1]; exact hi)]

/-- Incrementing the count leaves the members `begin` and `item_size`. -/
theorem get_iterate_incLength_other (L : Layout) (hL : L.wf) (k : Nat) (h : List UInt8)
    (hlen : h.length = L.headerSize) :
    L.beginF.get ((incLength L)^[k] h) = L.beginF.get h ∧
      L.itemSizeF.get ((incLength L)^[k] h) = L.itemSizeF.get h := by
  obtain ⟨⟨_, _, _, hl⟩, ⟨_, _, _, _, bl, il⟩, _⟩ := hL
  induction k generalizing h with
  | zero => exact ⟨rfl, rfl⟩
  | succ k ih =>
    have hin : inside L.lengthF.off L.lengthF.width h.length := by rw [hlen]; exact hl
    have hlen' : (incLength L h).length = L.headerSize := by
      rw [length_incLength L h hin]; exact hlen
    obtain ⟨i1, i2⟩ := ih (incLength L h) hlen'
    rw [Function.iterate_succ_apply, i1, i2]
    unfold incLength
    exact ⟨Field.get_set_apart L.lengthF L.beginF _ _ hin bl.symm,
      Field.get_set_apart L.lengthF L.itemSizeF _ _ hin il.symm⟩

/-- The `try` block of `fromJson` on a document whose header declares the
compiled sizes and whose items can all be read. -/
theorem fromJsonData_reads (L : Layout) (hL : L.wf)
    (hbeginFits : L.headerSize < 256 ^ L.beginF.width)
    (hitemFits : L.itemSize < 256 ^ L.itemSizeF.width) (data header size item_size items : Json)
    (values : List (List Char × List Char × Int × Int))
    (hheader : data.member "header".toList = .ok header)
    (hsize : header.member "size".toList = .ok size)
    (hsizeEq : size.equalsNumber L.headerSize = true)
    (hitem : header.member "item_size".toList = .ok item_size)
    (hitemEq : item_size.equalsNumber L.itemSize = true)
    (hitems : data.member "items".toList = .ok items)
    (hreads : List.Forall₂ reads items.elements values) :
    fromJsonData L data
      = .ok (.ok { m_header := (incLength L)^[values.length] (defaultHeader L)
                   m_items := values.map (fun v => builtItem L v.1 v.2.1 v.2.2.1 v.2.2.2) }) := by
  have hb : L.beginF.get (RKCfgFile.empty L).m_header = L.headerSize := by
    rw [RKCfgFile.empty, get_begin_defaultHeader L hL, Nat.mod_eq_of_lt hbeginFits]
  have hi : L.itemSizeF.get (RKCfgFile.empty L).m_header = L.itemSize := by
    rw [RKCfgFile.empty, get_itemSize_defaultHeader L hL, Nat.mod_eq_of_lt hitemFits]
  unfold fromJsonData
  rw [hheader]
  simp only [hsize, hb, hsizeEq, hitem, hi, hitemEq, hitems,
    addJsonItems_reads L _ _ hreads]
  simp [RKCfgFile.empty]

theorem fromJson_of_data (L : Layout) (data : Json)
    (result : Except RKCfgLoadErrorCode RKCfgFile) (h : fromJsonData L data = .ok result) :
    RKCfgFile.fromJson L (some { document := some data, openable := true }) = some result := by
  simp [RKCfgFile.fromJson, h]

theorem reads_itemJson (L : Layout) (item : List UInt8) :
    reads (itemJson L item)
      (from_char16 (itemName L item), from_char16 (itemPath L item),
        Int.ofNat (L.addressF.get item), if L.selectedF.get item != 0 then 1 else 0) :=
  ⟨rfl, rfl, rfl, rfl⟩

theorem memberValue_flag (width : Nat) (hw : 0 < width) (flag : Bool) :
    memberValue width (if flag then 1 else 0) = if flag then 1 else 0 := by
  have h1 : 1 < 256 ^ width := by
    have : 256 ^ 1 ≤ 256 ^ width := Nat.pow_le_pow_right (by decide) hw
    omega
  cases flag with
  | false =>
    have := memberValue_ofNat width 0
    simpa using this
  | true =>
    have := memberValue_ofNat width 1
    rw [Nat.mod_eq_of_lt h1] at this
    simpa using this

/-! ## The structured-text codec: claims C11 to C13 -/

set_option maxRecDepth 100000 in
/-- C11, the failing input: `overlongNameDoc` has the compiled header size and
item size and declares one item whose name has sixteen characters, the bound
of the name member; `fromJson` returns a configuration all the same, with one
item whose name is empty. -/
theorem C11_overlong_name_accepted :
    (utf16 "abcdefghijklmnop".toList).length = 16 ∧ sampleLayout.maxName = 16 ∧
      ∃ c item,
        RKCfgFile.fromJson sampleLayout (some { document := some overlongNameDoc, openable := true })
          = some (.ok c) ∧
        c.m_items = [item] ∧ from_char16 (itemName sampleLayout item) = [] ∧
        from_char16 (itemPath sampleLayout item) = "uboot.img".toList := by
  refine ⟨by decide, by decide, _, _, by rfl, rfl, by decide, by decide⟩

/-- An item read back from the document that `toJson` made of it is
equivalent to it, when its name and its image path hold terminated text. -/
theorem builtItem_equivalent (L : Layout) (hL : L.wf) (item : List UInt8)
    (hname : holdsText (itemName L item) L.maxName)
    (hpath : holdsText (itemPath L item) L.maxPath) :
    equivalent L
      (builtItem L (from_char16 (itemName L item)) (from_char16 (itemPath L item))
        (Int.ofNat (L.addressF.get item)) (if L.selectedF.get item != 0 then 1 else 0))
      item := by
  obtain ⟨tn, tailn, hn0, hnfit, hnbuf⟩ := hname
  obtain ⟨tp, tailp, hp0, hpfit, hpbuf⟩ := hpath
  have hdn : from_char16 (itemName L item) = tn := by
    rw [hnbuf]; exact from_char16_terminated tn _ hn0 (Or.inr rfl)
  have hdp : from_char16 (itemPath L item) = tp := by
    rw [hpbuf]; exact from_char16_terminated tp _ hp0 (Or.inr rfl)
  obtain ⟨_, m2, m3, m4, m5⟩ := builtItem_members L hL (from_char16 (itemName L item))
    (from_char16 (itemPath L item)) (Int.ofNat (L.addressF.get item))
    (if L.selectedF.get item != 0 then 1 else 0)
  refine ⟨?_, ?_, ?_, ?_⟩
  · rw [m3]
    by_cases h0 : L.selectedF.get item = 0
    · have := memberValue_ofNat L.selectedF.width 0
      simp only [h0, bne_self_eq_false, Bool.false_eq_true, if_false]
      rw [show (0 : Int) = Int.ofNat 0 from rfl, this]
      simp
    · have hw : 0 < L.selectedF.width := by
        rcases Nat.eq_zero_or_pos L.selectedF.width with hz | hz
        · have := Field.get_lt L.selectedF item
          rw [hz] at this
          simp at this
          exact absurd this h0
        · exact hz
      have hflag := memberValue_flag L.selectedF.width hw true
      simp only [if_true] at hflag
      have hb : (L.selectedF.get item != 0) = true := by simpa using h0
      simp only [hb, if_true]
      rw [hflag]
      rfl
  · rw [m2, memberValue_ofNat, Nat.mod_eq_of_lt (Field.get_lt _ _)]
  · rw [m4 (by rw [hdn]; exact hnfit), hdn, from_char16_wideBuffer tn _ hn0]
  · rw [m5 (by rw [hdp]; exact hpfit), hdp, from_char16_wideBuffer tp _ hp0]

/-- C13, the part that holds: for every configuration that has at least one
item, whose header-length member (`begin`) equals the compiled header size,
whose item-record-size member equals the compiled item size, whose count
member equals the length of the item list, and whose names and image paths
hold terminated text, the document that `save` writes in structured-text mode
is accepted by `fromJson`, and the loaded configuration is equivalent: the
same header size, item size and item count, and the same items in the same
order, with equal flag, address, decoded name and decoded image path. -/
theorem save_json_then_load (L : Layout) (hL : L.wf)
    (hbeginFits : L.headerSize < 256 ^ L.beginF.width)
    (hitemFits : L.itemSize < 256 ^ L.itemSizeF.width) (c : RKCfgFile)
    (hbegin : L.beginF.get c.m_header = L.headerSize)
    (hitem : L.itemSizeF.get c.m_header = L.itemSize)
    (hcount : L.lengthF.get c.m_header = c.m_items.length) (hne : c.m_items ≠ [])
    (htext : ∀ item ∈ c.m_items,
      holdsText (itemName L item) L.maxName ∧ holdsText (itemPath L item) L.maxPath) :
    ∃ doc loaded, c.saveJson L true = .ok doc ∧
      RKCfgFile.fromJson L (some { document := some doc, openable := true })
        = some (.ok loaded) ∧
      L.beginF.get loaded.m_header = L.beginF.get c.m_header ∧
      L.itemSizeF.get loaded.m_header = L.itemSizeF.get c.m_header ∧
      L.lengthF.get loaded.m_header = L.lengthF.get c.m_header ∧
      List.Forall₂ (equivalent L) loaded.m_items c.m_items := by
  have hempty : c.m_items.isEmpty = false := by
    cases hi : c.m_items with
    | nil => exact absurd hi hne
    | cons x xs => rfl
  have hdoc : c.toJson L
      = .obj
        [("header".toList,
          .obj
            [("item_size".toList, .num (Int.ofNat (L.itemSizeF.get c.m_header))),
              ("size".toList, .num (Int.ofNat (L.beginF.get c.m_header)))]),
          ("items".toList, .arr (c.m_items.map (itemJson L)))] := by
    unfold RKCfgFile.toJson
    rw [hempty]
    rfl
  have hreads : List.Forall₂ reads (Json.arr (c.m_items.map (itemJson L))).elements
      (c.m_items.map (fun item =>
        (from_char16 (itemName L item), from_char16 (itemPath L item),
          Int.ofNat (L.addressF.get item),
          if L.selectedF.get item != 0 then (1 : Int) else 0))) := by
    show List.Forall₂ reads (c.m_items.map (itemJson L)) _
    rw [List.forall₂_map_left_iff, List.forall₂_map_right_iff, List.forall₂_same]
    intro item _
    exact reads_itemJson L item
  have hdata := fromJsonData_reads L hL hbeginFits hitemFits (c.toJson L)
    (.obj
      [("item_size".toList, .num (Int.ofNat (L.itemSizeF.get c.m_header))),
        ("size".toList, .num (Int.ofNat (L.beginF.get c.m_header)))])
    (.num (Int.ofNat (L.beginF.get c.m_header)))
    (.num (Int.ofNat (L.itemSizeF.get c.m_header)))
    (.arr (c.m_items.map (itemJson L))) _ (by rw [hdoc]; rfl) rfl
    (by rw [hbegin]; simp [Json.equalsNumber]) rfl
    (by rw [hitem]; simp [Json.equalsNumber]) (by rw [hdoc]; rfl) hreads
  have hlen : (defaultHeader L).length = L.headerSize := length_defaultHeader L hL
  have hin : inside L.lengthF.off L.lengthF.width (defaultHeader L).length := by
    rw [hlen]; exact hL.1.2.2.2
  obtain ⟨o1, o2⟩ := get_iterate_incLength_other L hL c.m_items.length (defaultHeader L) hlen
  refine ⟨c.toJson L, _, rfl, fromJson_of_data L _ _ hdata, ?_, ?_, ?_, ?_⟩
  · simp only [List.length_map]
    rw [o1, get_begin_defaultHeader L hL, Nat.mod_eq_of_lt hbeginFits, hbegin]
  · simp only [List.length_map]
    rw [o2, get_itemSize_defaultHeader L hL, Nat.mod_eq_of_lt hitemFits, hitem]
  · simp only [List.length_map]
    rw [get_iterate_incLength L _ _ hin, get_length_defaultHeader L hL, Nat.zero_add, hcount,
      Nat.mod_eq_of_lt]
    rw [← hcount]; exact Field.get_lt _ _
  · simp only [List.map_map]
    rw [List.forall₂_map_left_iff, List.forall₂_same]
    intro item hitem'
    exact builtItem_equivalent L hL item (htext item hitem').1 (htext item hitem').2

theorem holdsText_wideBuffer (text : List Char) (maxLen : Nat) (h0 : ∀ c ∈ text, c.toNat ≠ 0)
    (hfit : (utf16 text).length < maxLen) : holdsText (wideBuffer text maxLen) maxLen := by
  refine ⟨text, List.replicate (maxLen - (utf16 text).length - 1) 0, h0, hfit, ?_⟩
  unfold wideBuffer
  have : maxLen - (utf16 text).length = (maxLen - (utf16 text).length - 1) + 1 := by omega
  rw [this, List.replicate_succ]
  simp

theorem holdsText_builtItem (L : Layout) (hL : L.wf) (name image_path : List Char)
    (address is_selected : Int) (hn0 : ∀ c ∈ name, c.toNat ≠ 0)
    (hnfit : (utf16 name).length < L.maxName) (hp0 : ∀ c ∈ image_path, c.toNat ≠ 0)
    (hpfit : (utf16 image_path).length < L.maxPath) :
    holdsText (itemName L (builtItem L name image_path address is_selected)) L.maxName ∧
      holdsText (itemPath L (builtItem L name image_path address is_selected)) L.maxPath := by
  obtain ⟨_, _, _, m4, m5⟩ := builtItem_members L hL name image_path address is_selected
  rw [m4 hnfit, m5 hpfit]
  exact ⟨holdsText_wideBuffer name _ hn0 hnfit, holdsText_wideBuffer image_path _ hp0 hpfit⟩

set_option maxRecDepth 100000 in
/-- The two items of `textConfig` come back equivalent from the document that
`save` writes. -/
theorem save_json_then_load_sample :
    ∃ doc loaded, textConfig.saveJson sampleLayout true = .ok doc ∧
      RKCfgFile.fromJson sampleLayout (some { document := some doc, openable := true })
        = some (.ok loaded) ∧
      sampleLayout.beginF.get loaded.m_header = sampleLayout.beginF.get textConfig.m_header ∧
      sampleLayout.itemSizeF.get loaded.m_header
        = sampleLayout.itemSizeF.get textConfig.m_header ∧
      sampleLayout.lengthF.get loaded.m_header = sampleLayout.lengthF.get textConfig.m_header ∧
      List.Forall₂ (equivalent sampleLayout) loaded.m_items textConfig.m_items :=
  save_json_then_load sampleLayout (by decide) (by decide) (by decide) textConfig
    (by decide) (by decide) (by decide) (by decide)
    (by
      intro item hitem
      have hmem : item = builtItem sampleLayout "uboot".toList "uboot.img".toList 16384 1 ∨
          item = builtItem sampleLayout "userdisk".toList [] 19111936 0 := by
        simpa [textConfig, RKCfgFile.addItem, RKCfgFile.empty] using hitem
      rcases hmem with h | h
      · rw [h]
        exact holdsText_builtItem sampleLayout (by decide) _ _ _ _ (by decide) (by decide)
          (by decide) (by decide)
      · rw [h]
        exact holdsText_builtItem sampleLayout (by decide) _ _ _ _ (by decide) (by decide)
          (by decide) (by decide))

set_option maxRecDepth 100000 in
/-- The guard on the header size: `shiftedConfig` has the magic tag, the
compiled item-record-size and a count equal to its list length; the document
that `save` writes for it declares its header-length member 0, and `fromJson`
rejects the document with `UnsupportedHeaderSize`. -/
theorem save_json_shifted_begin :
    shiftedConfig.sized sampleLayout ∧
      magicOk sampleLayout shiftedConfig.m_header = true ∧
      sampleLayout.itemSizeF.get shiftedConfig.m_header = sampleLayout.itemSize ∧
      sampleLayout.lengthF.get shiftedConfig.m_header = shiftedConfig.m_items.length ∧
      ∃ doc, shiftedConfig.saveJson sampleLayout true = .ok doc ∧
        RKCfgFile.fromJson sampleLayout (some { document := some doc, openable := true })
          = some (.error .UnsupportedHeaderSize) := by
  refine ⟨by decide, by decide, by decide, by decide, _, rfl, by rfl⟩

set_option maxRecDepth 100000 in
/-- A name that fills its member without a terminator decodes to sixteen
characters, which `to_char16` refuses on the way back: the item is loaded with
an empty name. -/
theorem save_json_full_name :
    (∃ item, fullNameConfig.m_items = [item] ∧
        (from_char16 (itemName sampleLayout item)).length = 16) ∧
      ∃ loaded item,
        RKCfgFile.fromJson sampleLayout (some (savedJsonFile sampleLayout fullNameConfig))
          = some (.ok loaded) ∧
        loaded.m_items = [item] ∧ from_char16 (itemName sampleLayout item) = [] := by
  refine ⟨⟨_, rfl, by decide⟩, _, _, by rfl, rfl, by decide⟩

set_option maxRecDepth 100000 in
/-- C13: the empty configuration, as the default constructor makes it, has the
magic tag, the compiled item-record-size, a count equal to the length of its
item list (0) and a header-length member equal to the header size.  `save` in
structured-text mode succeeds on it, but the document it writes has no member
`items`, and `fromJson` has no defined result on that document: its access
`data["items"]` is to a member that a constant document does not have. -/
theorem C13_empty_configuration_not_reloaded :
    (RKCfgFile.empty sampleLayout).sized sampleLayout ∧
      magicOk sampleLayout (RKCfgFile.empty sampleLayout).m_header = true ∧
      sampleLayout.itemSizeF.get (RKCfgFile.empty sampleLayout).m_header
        = sampleLayout.itemSize ∧
      sampleLayout.lengthF.get (RKCfgFile.empty sampleLayout).m_header
        = (RKCfgFile.empty sampleLayout).m_items.length ∧
      sampleLayout.beginF.get (RKCfgFile.empty sampleLayout).m_header
        = sampleLayout.headerSize ∧
      ∃ doc, (RKCfgFile.empty sampleLayout).saveJson sampleLayout true = .ok doc ∧
        doc.member "header".toList
          = .ok (.obj [("item_size".toList, .num 88), ("size".toList, .num 12)]) ∧
        doc.member "items".toList = .error .undefined ∧
        RKCfgFile.fromJson sampleLayout (some { document := some doc, openable := true })
          = none := by
  refine ⟨by decide, by decide, by decide, by decide, by decide, _, rfl, by rfl, by rfl,
    by rfl⟩

end rockchip

